import Mathlib

/-!
Shallow embedding of the pure core of `docs/download_sources.py` — the
reference-sourcing pipeline: identifier extraction, the PDF artifact
validator, the duplicate registry, the checklist store, the fast strategy
chain, the download strategies' file discipline, and the vision element
ranker — together with theorems settling the specification claims.

Strings are modelled as `List Char` (`Str`).  Python regular expressions
are embedded as character-level scanning functions with the exact
leftmost/greedy semantics they have on the patterns at hand.  External
collaborators (network fetches, parsed pages, PDF parsing) appear as
oracle inputs, matching the specification's component boundaries.
-/

abbrev Str := List Char

/-! ## Basic string utilities -/

def lowerStr (s : Str) : Str := s.map Char.toLower

def isWs (c : Char) : Bool := c.isWhitespace

/-- Here `isPre n h` : `h` starts with `n` (exact characters). -/
def isPre : Str → Str → Bool
  | [], _ => true
  | _ :: _, [] => false
  | a :: as, b :: bs => a == b && isPre as bs

/-- Here `isPreCI n h` : `h` starts with `n`, case-insensitively. -/
def isPreCI : Str → Str → Bool
  | [], _ => true
  | _ :: _, [] => false
  | a :: as, b :: bs => a.toLower == b.toLower && isPreCI as bs

/-- Python's `needle in hay` substring test. -/
def hasSub (needle : Str) : Str → Bool
  | [] => needle.isEmpty
  | h :: t => isPre needle (h :: t) || hasSub needle t

/-- Here `endsWithStr pat s` : `s` ends with `pat` (exact characters). -/
def endsWithStr (pat s : Str) : Bool := isPre pat.reverse s.reverse

/-- Here `endsWithCI pat s` : `s` ends with `pat`, case-insensitively. -/
def endsWithCI (pat s : Str) : Bool := isPreCI pat.reverse s.reverse

/-- Strip an exact literal from the front, returning the remainder. -/
def stripLit : Str → Str → Option Str
  | [], s => some s
  | _ :: _, [] => none
  | a :: as, b :: bs => if a = b then stripLit as bs else none

/-- Case-insensitive literal strip; returns (actually matched text, remainder). -/
def splitLitCI : Str → Str → Option (Str × Str)
  | [], s => some ([], s)
  | _ :: _, [] => none
  | a :: as, b :: bs =>
    if a.toLower = b.toLower then
      match splitLitCI as bs with
      | some (m, r) => some (b :: m, r)
      | none => none
    else none

/-- Case-insensitive literal strip from the front (remainder only). -/
def stripLitCI (lit s : Str) : Option Str :=
  match splitLitCI lit s with
  | some (_, r) => some r
  | none => none

/-- Python's `str.strip()`: whitespace removed from both ends. -/
def stripL (s : Str) : Str := ((s.dropWhile isWs).reverse.dropWhile isWs).reverse

/-- Python's `s.split(sep)` for a single-character separator (keeps empties). -/
def splitChar (sep : Char) : Str → List Str
  | [] => [[]]
  | c :: t =>
    let r := splitChar sep t
    if c = sep then [] :: r
    else
      match r with
      | [] => [[c]]
      | h :: t2 => (c :: h) :: t2

/-- Decimal representation, structurally recursive on a fuel bound so that
it evaluates inside the kernel. -/
def natReprAux : Nat → Nat → Str
  | 0, _ => []
  | fuel + 1, n =>
    if n < 10 then [Nat.digitChar n]
    else natReprAux fuel (n / 10) ++ [Nat.digitChar (n % 10)]

/-- Decimal representation of a natural number (Python `str(n)`). -/
def natRepr (n : Nat) : Str := natReprAux (n + 1) n

/-- Python `f"{n:03d}"`: decimal, left-padded with zeros to width 3. -/
def pad3 (n : Nat) : Str :=
  let d := natRepr n
  List.replicate (3 - d.length) '0' ++ d

/-- Numeric value of a digit run (how `int(...)` reads a captured group). -/
def natVal (l : Str) : Nat := l.foldl (fun a c => 10 * a + (c.toNat - 48)) 0

/-! ## Artifact Validator (`is_valid_pdf`, lines 259–314)

A file on disk is abstracted by what the validator observes of it:
presence, byte size, leading header bytes, the PDF parser's outcome
(`none` = cannot be opened / a page access raises, `some n` = parses with
`n` pages), and its on-disk name. -/

structure FileInfo where
  onDisk : Bool
  size : Nat
  header : Str
  pages : Option Nat
  filename : Str
deriving DecidableEq

/-- Embeds `os.path.basename`: the part after the last slash. -/
def baseName (s : Str) : Str :=
  s.foldl (fun acc c => if c = '/' then [] else acc ++ [c]) []

def suppMarks : List Str :=
  [ "supplem".data, "suppinfo".data, "si_".data, "_si.".data, "s001".data, "s002".data ]

def isSupplementary (nameLower : Str) : Bool :=
  suppMarks.any (fun m => hasSub m nameLower)

/-- Embeds `is_valid_pdf(filepath, min_size)`, with its early-return structure. -/
def is_valid_pdf (f : FileInfo) (min_size : Nat) : Bool :=
  if !f.onDisk then false
  else if f.size < min_size then false
  else if !isPre "%PDF".data f.header then false
  else
    match f.pages with
    | none => false
    | some n =>
      if n < 1 then false
      else if isSupplementary (lowerStr (baseName f.filename)) then false
      else true

def pagesOk : Option Nat → Bool
  | none => false
  | some n => decide (1 ≤ n)

/-! ## Duplicate Registry (`downloaded_dois`, `check_duplicate`, `register_doi`,
lines 94–145)

The registry is the `doi -> first item index` map plus the set of stub
files written so far.  The map is an association list with Python-dict
insertion semantics.  Each of `check_duplicate` and `register_doi` runs
under `doi_lock`, so each is one atomic operation on this state. -/

structure RegState where
  registry : List (Str × Nat)
  stubs : List (Str × Str)
deriving DecidableEq

def regLookup : List (Str × Nat) → Str → Option Nat
  | [], _ => none
  | (k, v) :: t, d => if k = d then some v else regLookup t d

def mkStubName (itemIndex origIndex : Nat) : Str :=
  "item".data ++ pad3 itemIndex ++ "_duplicate_of_item".data ++ pad3 origIndex

def mkStubContent (origIndex : Nat) (d : Str) : Str :=
  "Duplicate of item ".data ++ pad3 origIndex ++ "\nDOI: ".data ++ d ++ "\n".data

/-- Embeds `check_duplicate(doi, item_index, output_dir)`: under the lock, if the
identifier is registered, write one stub file and report `true`. -/
def check_duplicate (doi : Option Str) (item_index : Nat) (st : RegState) :
    Bool × RegState :=
  match doi with
  | none => (false, st)
  | some d =>
    match regLookup st.registry d with
    | some orig =>
      (true, { st with stubs := st.stubs ++ [(mkStubName item_index orig, mkStubContent orig d)] })
    | none => (false, st)

/-- Embeds `register_doi(doi, item_index)`: under the lock, record the identifier
if it is not already present. -/
def register_doi (doi : Option Str) (item_index : Nat) (st : RegState) : RegState :=
  match doi with
  | none => st
  | some d =>
    match regLookup st.registry d with
    | none => { st with registry := st.registry ++ [(d, item_index)] }
    | some _ => st

/-! ## Interleaved resolution (`process_item_fast`, lines 2245–2272)

For the registry invariant we model the per-item skeleton of
`process_item_fast` as it touches the registry: an item first runs
`check_duplicate` (one atomic step); if that returns `false` it fetches and
then runs `register_doi` (a later, separate atomic step).  A schedule
interleaves the atomic steps of several items. -/

inductive PC
  | ini       -- about to run check_duplicate
  | working   -- passed the duplicate check, fetching; will register
  | stubbed   -- check_duplicate returned true; a stub was written
  | original  -- fetched and ran register_doi; believes it is the original
deriving DecidableEq

structure ItemState where
  idx : Nat
  doi : Option Str
  pc : PC
deriving DecidableEq

structure SysState where
  reg : RegState
  items : List ItemState
deriving DecidableEq

def stepItem (st : RegState) (it : ItemState) : RegState × ItemState :=
  match it.pc with
  | .ini =>
    let r := check_duplicate it.doi it.idx st
    (r.2, { it with pc := if r.1 then .stubbed else .working })
  | .working =>
    (register_doi it.doi it.idx st, { it with pc := .original })
  | _ => (st, it)

def stepSys (s : SysState) (k : Nat) : SysState :=
  match s.items[k]? with
  | none => s
  | some it =>
    let r := stepItem s.reg it
    { reg := r.1, items := s.items.set k r.2 }

def runSys (s : SysState) : List Nat → SysState
  | [] => s
  | k :: sch => runSys (stepSys s k) sch

/-! ## Checklist Store (`parse_checklist`, `update_checklist`, lines 148–178)

The file is a list of lines (as read by `readlines`).  `update_checklist`
holds `checklist_lock` for the whole read-modify-write, so one call is one
atomic transformation of the line list:  a line is rewritten iff the regex
`^{index}\.\s*\[\s*\]` matches its stripped form, and the rewrite replaces
the first `\[\s*\]` occurrence in the raw line by `[x]`. -/

/-- Does `\s*\[\s*\]` match at the front of `r`?  (the part of the row
pattern after `{index}\.`). -/
def uncheckedAfterDot (r : Str) : Bool :=
  match r.dropWhile isWs with
  | '[' :: r2 =>
    match r2.dropWhile isWs with
    | ']' :: _ => true
    | _ => false
  | _ => false

/-- Test `re.match(rf'^{index}\.\s*\[\s*\]', line.strip())` as a Boolean. -/
def matchesUncheckedRow (i : Nat) (line : Str) : Bool :=
  match stripLit (natRepr i ++ ['.']) (stripL line) with
  | some r => uncheckedAfterDot r
  | none => false

/-- After a `'['`: if `\s*\]` follows, return what comes after the `']'`. -/
def checkboxEnd (l : Str) : Option Str :=
  match l.dropWhile isWs with
  | ']' :: t => some t
  | _ => none

/-- Embeds `re.sub(r'\[\s*\]', '[x]', line, count=1)`: replace the leftmost empty
checkbox. -/
def subCheckbox : Str → Str
  | [] => []
  | c :: rest =>
    if c = '[' then
      match checkboxEnd rest with
      | some t => '[' :: 'x' :: ']' :: t
      | none => c :: subCheckbox rest
    else c :: subCheckbox rest

def applyMark (i : Nat) (line : Str) : Str :=
  if matchesUncheckedRow i line then subCheckbox line else line

/-- Embeds `update_checklist(checklist_path, index)`: the whole-file
read-modify-write under the checklist lock. -/
def update_checklist (i : Nat) (lines : List Str) : List Str :=
  lines.map (applyMark i)

/-! ## Identifier Extractor (`extract_doi_from_url`,
`extract_identifier_from_url`, `sanitize_filename`, lines 181–256)

Each regular expression of the source is embedded as a scanner with
Python's leftmost-match semantics; for these patterns greedy matching with
backtracking coincides with maximal munch (after a maximal `\d{4,}` or
`[^\s/]+` run the next pattern character can never match inside the run). -/

/-- Try a position-level scanner at every start position, leftmost first
(the semantics of `re.search`). -/
def searchPos (f : Str → Option α) : Str → Option α
  | [] => f []
  | c :: t =>
    match f (c :: t) with
    | some r => some r
    | none => searchPos f t

def notSpaceSlash (c : Char) : Bool := !c.isWhitespace && c ≠ '/'

/-- Pattern `nature\.com/articles/([a-z0-9\-]+)` (IGNORECASE) at one position. -/
def natureScanAt (s : Str) : Option Str :=
  match stripLitCI "nature.com/articles/".data s with
  | none => none
  | some r =>
    let g := r.takeWhile (fun c => c.isAlpha || c.isDigit || c = '-')
    if g.isEmpty then none else some g

/-- Pattern `10\.\d{4,}/[^\s/]+/[^\s/]+` at one position (two path segments). -/
def doiCore2At (s : Str) : Option Str :=
  match stripLit "10.".data s with
  | none => none
  | some r =>
    let ds := r.takeWhile Char.isDigit
    if ds.length < 4 then none
    else
      match r.drop ds.length with
      | '/' :: r2 =>
        let a := r2.takeWhile notSpaceSlash
        if a.isEmpty then none
        else
          match r2.drop a.length with
          | '/' :: r3 =>
            let b := r3.takeWhile notSpaceSlash
            if b.isEmpty then none
            else some ("10.".data ++ ds ++ '/' :: a ++ '/' :: b)
          | _ => none
      | _ => none

/-- Pattern `10\.\d{4,}/[^\s/]+` at one position (one path segment). -/
def doiCore1At (s : Str) : Option Str :=
  match stripLit "10.".data s with
  | none => none
  | some r =>
    let ds := r.takeWhile Char.isDigit
    if ds.length < 4 then none
    else
      match r.drop ds.length with
      | '/' :: r2 =>
        let a := r2.takeWhile notSpaceSlash
        if a.isEmpty then none else some ("10.".data ++ ds ++ '/' :: a)
      | _ => none

/-- Pattern `doi[:/]+(10\.\d{4,}/[^\s/]+/[^\s/]+)` (IGNORECASE) at one position. -/
def doiPrefAt (s : Str) : Option Str :=
  match stripLitCI "doi".data s with
  | none => none
  | some r =>
    let seps := r.takeWhile (fun c => c = ':' || c = '/')
    if seps.isEmpty then none else doiCore2At (r.drop seps.length)

/-- Drop a case-insensitive suffix if present (`re.sub(r'X$', '', s, flags=I)`). -/
def dropEndCI (suf s : Str) : Str :=
  if endsWithCI suf s then s.take (s.length - suf.length) else s

/-- The four suffix removals applied to every pattern-matched DOI. -/
def stripDoiSuffixes (d : Str) : Str :=
  dropEndCI "/abstract".data (dropEndCI "/full".data (dropEndCI "/pdf".data (dropEndCI ".pdf".data d)))

/-- Embeds `extract_doi_from_url(url)` (lines 181–205). -/
def extract_doi_from_url (url : Str) : Option Str :=
  match searchPos natureScanAt url with
  | some g => some ("10.1038/".data ++ g)
  | none =>
    match searchPos doiPrefAt url with
    | some d => some (stripDoiSuffixes d)
    | none =>
      match searchPos doiCore2At url with
      | some d => some (stripDoiSuffixes d)
      | none =>
        match searchPos doiCore1At url with
        | some d => some (stripDoiSuffixes d)
        | none => none

/-- Pattern `pmc\.ncbi\.nlm\.nih\.gov/articles/(PMC\d+)` (IGNORECASE); the captured
group is the text as it appears in the URL. -/
def pmcAt (s : Str) : Option Str :=
  match stripLitCI "pmc.ncbi.nlm.nih.gov/articles/".data s with
  | none => none
  | some r =>
    match splitLitCI "PMC".data r with
    | none => none
    | some (m, r2) =>
      let ds := r2.takeWhile Char.isDigit
      if ds.isEmpty then none else some (m ++ ds)

/-- Pattern `ieeexplore\.ieee\.org/document/(\d+)` (IGNORECASE). -/
def ieeeAt (s : Str) : Option Str :=
  match stripLitCI "ieeexplore.ieee.org/document/".data s with
  | none => none
  | some r =>
    let ds := r.takeWhile Char.isDigit
    if ds.isEmpty then none else some ds

/-- Pattern `arxiv\.org/(?:abs|pdf)/(\d+\.\d+)` (case-sensitive). -/
def arxivAt (s : Str) : Option Str :=
  match stripLit "arxiv.org/".data s with
  | none => none
  | some r =>
    let r2 :=
      match stripLit "abs/".data r with
      | some x => some x
      | none => stripLit "pdf/".data r
    match r2 with
    | none => none
    | some r3 =>
      let a := r3.takeWhile Char.isDigit
      if a.isEmpty then none
      else
        match r3.drop a.length with
        | '.' :: r4 =>
          let b := r4.takeWhile Char.isDigit
          if b.isEmpty then none else some (a ++ '.' :: b)
        | _ => none

/-- Pattern `/article/([\d/]+)` (case-sensitive). -/
def articlePathAt (s : Str) : Option Str :=
  match stripLit "/article/".data s with
  | none => none
  | some r =>
    let g := r.takeWhile (fun c => c.isDigit || c = '/')
    if g.isEmpty then none else some g

/-- Python `url.rstrip('/')`. -/
def rstripSlash (s : Str) : Str := (s.reverse.dropWhile (fun c => c = '/')).reverse

/-- Embeds `re.sub(r'\.(pdf|html?)$', '', s, flags=I)`. -/
def dropUrlExt (s : Str) : Str :=
  if endsWithCI ".pdf".data s then s.take (s.length - 4)
  else if endsWithCI ".html".data s then s.take (s.length - 5)
  else if endsWithCI ".htm".data s then s.take (s.length - 4)
  else s

def slashToUnderscore (s : Str) : Str := s.map (fun c => if c = '/' then '_' else c)

/-- Embeds `extract_identifier_from_url(url)` (lines 208–247). -/
def extract_identifier_from_url (url : Str) : Option Str :=
  match extract_doi_from_url url with
  | some d => some (slashToUnderscore d)
  | none =>
    match searchPos pmcAt url with
    | some g => some g
    | none =>
      match searchPos ieeeAt url with
      | some g => some g
      | none =>
        match searchPos arxivAt url with
        | some g => some g
        | none =>
          match searchPos articlePathAt url with
          | some g => some (slashToUnderscore g)
          | none =>
            let parts := (splitChar '/' (rstripSlash url)).filter
              (fun p => !p.isEmpty && p ≠ "http:".data && p ≠ "https:".data && p ≠ "www.".data)
            match parts.getLast? with
            | none => none
            | some lp =>
              let lp := lp.takeWhile (fun c => c ≠ '?')
              let lp := dropUrlExt lp
              if 2 < lp.length then some lp else none

/-- Embeds `sanitize_filename(url)` (lines 250–256). -/
def sanitize_filename (url : Str) : Str :=
  let name := (splitChar '/' url).getLastD []
  let name := if endsWithCI ".pdf".data name then name.take (name.length - 4) else name
  let name := name.map (fun c => if c.isAlphanum || c = '_' || c = '-' || c = '.' then c else '_')
  name.take 80

/-- Embeds `get_filename(url, item_index)` (lines 317–329). -/
def get_filename (url : Str) (item_index : Nat) : Str :=
  match extract_identifier_from_url url with
  | some ident => "item".data ++ pad3 item_index ++ '_' :: ident ++ ".pdf".data
  | none =>
    let s := sanitize_filename url
    if !s.isEmpty then "item".data ++ pad3 item_index ++ '_' :: s ++ ".pdf".data
    else "item".data ++ pad3 item_index ++ ".pdf".data

/-! ## Startup scan (`init_downloaded_dois`, lines 108–121) -/

/-- The prefix of `s` before the last `".pdf"` occurrence (how the greedy
`(.+)\.pdf` splits the tail of the filename), `none` if `".pdf"` does not
occur. -/
def lastDotPdf : Str → Option Str
  | [] => none
  | c :: t =>
    match lastDotPdf t with
    | some r => some (c :: r)
    | none => if isPre ".pdf".data (c :: t) then some [] else none

/-- Embeds `re.match(r'item(\d+)_(.+)\.pdf', name)`: the item number and the
identifier part. -/
def scanItemFilename (name : Str) : Option (Nat × Str) :=
  match stripLit "item".data name with
  | none => none
  | some r =>
    let ds := r.takeWhile Char.isDigit
    if ds.isEmpty then none
    else
      match r.drop ds.length with
      | '_' :: r2 =>
        match lastDotPdf r2 with
        | some g => if g.isEmpty then none else some (natVal ds, g)
        | none => none
      | _ => none

/-- Python dict assignment `m[k] = v`. -/
def assocSet (l : List (Str × Nat)) (k : Str) (v : Nat) : List (Str × Nat) :=
  match l with
  | [] => [(k, v)]
  | (k0, v0) :: t => if k0 = k then (k, v) :: t else (k0, v0) :: assocSet t k v

/-- Python `s.split('_', 1)` when an underscore is present. -/
def splitFirstUnd : Str → Option (Str × Str)
  | [] => none
  | c :: t =>
    if c = '_' then some ([], t)
    else
      match splitFirstUnd t with
      | some (a, b) => some (c :: a, b)
      | none => none

/-- Embeds `init_downloaded_dois(output_dir)` over the directory's file names
(`glob("item*.pdf")` keeps names that start with `item` and end with
`.pdf`). -/
def init_downloaded_dois (files : List Str) : List (Str × Nat) :=
  files.foldl
    (fun acc name =>
      if isPre "item".data name && endsWithStr ".pdf".data name then
        match scanItemFilename name with
        | none => acc
        | some (i, doiPart) =>
          if isPre "10.".data doiPart then
            match splitFirstUnd doiPart with
            | some (a, b) => assocSet acc (a ++ '/' :: b) i
            | none => acc
          else acc
      else acc)
    []

/-! ## Download strategies' file discipline (`direct_download`, `try_scihub`,
lines 332–421)

The observable effect of the `curl` subprocess is the file it leaves at
the output path (`none` = no file).  `raises` models the `except` arm of
`direct_download`, whose handler unlinks any file at the path. -/

/-- Embeds `direct_download(url, output_path)`: returns (success, file now at the
output path). -/
def direct_download (raises : Bool) (afterCurl : Option FileInfo) :
    Bool × Option FileInfo :=
  if raises then (false, none)
  else
    match afterCurl with
    | some f => if is_valid_pdf f 50000 then (true, some f) else (false, none)
    | none => (false, none)

/-- One Sci-Hub mirror interaction: the fetched page (`none` = the fetch
raised), whether the page-scraping regex found a PDF link, and the file the
PDF download leaves at the output path (`none` = path untouched). -/
structure MirrorTry where
  body : Option Str
  pdfFound : Bool
  written : Option FileInfo

/-- Embeds `try_scihub(doi, output_path)`: the mirror loop, threading the file at
the output path.  Returns (success, file now at the output path). -/
def try_scihub_loop (file : Option FileInfo) : List MirrorTry → Bool × Option FileInfo
  | [] => (false, file)
  | m :: rest =>
    match m.body with
    | none => try_scihub_loop file rest
    | some b =>
      if hasSub "not available".data (lowerStr b) then try_scihub_loop file rest
      else if m.pdfFound then
        match (match m.written with | some f => some f | none => file) with
        | some f =>
          if 50000 < f.size && is_valid_pdf f 50000 then (true, some f)
          else try_scihub_loop none rest
        | none => try_scihub_loop file rest
      else try_scihub_loop file rest

/-! ## Source Chain, fast phase (`process_item_fast`, lines 2245–2369)

The twelve fast strategies are driven in the source by twelve sequential
`if success: return` blocks; the spec's design note maps this to an ordered
strategy list, which is how we embed it.  Each strategy is reduced to its
observable outcome (an oracle Boolean); the run is instrumented with a
trace of events: the duplicate check, each strategy invocation with its
outcome, and the CrossRef metadata fetch (`get_paper_metadata`). -/

inductive SName
  | direct | openaccess | openalex | core | semantic | base
  | openaire | doaj | researchgate | twelveft | scihub | gscholar
deriving DecidableEq

def SName.pos : SName → Nat
  | .direct => 0
  | .openaccess => 1
  | .openalex => 2
  | .core => 3
  | .semantic => 4
  | .base => 5
  | .openaire => 6
  | .doaj => 7
  | .researchgate => 8
  | .twelveft => 9
  | .scihub => 10
  | .gscholar => 11

inductive FEvent
  | dupCheck (hit : Bool)
  | strat (s : SName) (ok : Bool)
  | meta
deriving DecidableEq

def FEvent.isStrat : FEvent → Bool
  | .strat _ _ => true
  | _ => false

def FEvent.isMeta : FEvent → Bool
  | .meta => true
  | _ => false

/-- One entry of the ordered strategy list: its name, whether its guard in
the source lets it run, its outcome, and the source label reported on
success. -/
structure StratSpec where
  name : SName
  go : Bool
  ok : Bool
  src : Str

structure FastResult where
  idx : Nat
  ok : Bool
  source : Str
deriving DecidableEq

/-- Run a block of `if success: return` strategy steps (the literal shape
of lines 2265–2366): on success, mark the checklist, register the DOI and
return; otherwise fall through to the next entry. -/
def runChain (doi : Option Str) (idx : Nat) (st : RegState) (tr : List FEvent) :
    List StratSpec → FastResult × RegState × List FEvent
  | [] => (⟨idx, false, "needs_browser".data⟩, st, tr)
  | sp :: rest =>
    if sp.go then
      let tr := tr ++ [.strat sp.name sp.ok]
      if sp.ok then (⟨idx, true, sp.src⟩, register_doi doi idx st, tr)
      else runChain doi idx st tr rest
    else runChain doi idx st tr rest

/-- Oracle for one item's pass through the fast chain. -/
structure FastOracle where
  existsValid : Bool          -- output_path.exists() and is_valid_pdf(...)
  sDirect : Bool
  sOpenAccess : Bool
  metaTitle : Option Str      -- get_paper_metadata(doi) result
  metaAuthors : Option Str
  sOpenAlex : Bool
  sCore : Bool
  sSemantic : Bool
  sBase : Bool
  sOpenAire : Bool
  sDoaj : Bool
  sResearchGate : Bool
  s12ft : Bool
  sSciHub : Bool
  playwright : Bool
  sGScholar : Bool

/-- `process_item_fast(index, url, output_dir, checklist_path)`: duplicate
check, existing-file check, the two URL-only strategies, a single metadata
fetch, then the remaining ten strategies. -/
def process_item_fast (o : FastOracle) (idx : Nat) (url : Str) (st : RegState) :
    FastResult × RegState × List FEvent :=
  let doi := extract_doi_from_url url
  let c := check_duplicate doi idx st
  if c.1 then (⟨idx, true, "duplicate".data⟩, c.2, [.dupCheck true])
  else
    let tr : List FEvent := [.dupCheck false]
    if o.existsValid then (⟨idx, true, "exists".data⟩, register_doi doi idx st, tr)
    else
      let gDirect := endsWithStr ".pdf".data (lowerStr url) || hasSub "/pdf".data (lowerStr url)
      let r1 := runChain doi idx st tr
        [ ⟨.direct, gDirect, o.sDirect, "direct".data⟩,
          ⟨.openaccess, true, o.sOpenAccess, "openaccess".data⟩ ]
      if r1.1.ok then r1
      else
        let tr := if doi.isSome then r1.2.2 ++ [.meta] else r1.2.2
        let title := if doi.isSome then o.metaTitle else none
        runChain doi idx st tr
          [ ⟨.openalex, true, o.sOpenAlex, "OpenAlex".data⟩,
            ⟨.core, true, o.sCore, "CORE".data⟩,
            ⟨.semantic, true, o.sSemantic, "Semantic Scholar".data⟩,
            ⟨.base, true, o.sBase, "BASE".data⟩,
            ⟨.openaire, true, o.sOpenAire, "OpenAIRE".data⟩,
            ⟨.doaj, true, o.sDoaj, "DOAJ".data⟩,
            ⟨.researchgate, title.isSome, o.sResearchGate, "ResearchGate".data⟩,
            ⟨.twelveft, true, o.s12ft, "12ft.io".data⟩,
            ⟨.scihub, doi.isSome, o.sSciHub, "scihub".data⟩,
            ⟨.gscholar, title.isSome && o.playwright, o.sGScholar, "Google Scholar".data⟩ ]

/-- No strategy event occurs after a successful strategy event. -/
def noStratAfterSuccess : List FEvent → Bool
  | [] => true
  | .strat _ true :: t => t.all (fun e => !e.isStrat)
  | _ :: t => noStratAfterSuccess t

def stratSeq (tr : List FEvent) : List SName :=
  tr.filterMap (fun e => match e with | .strat s _ => some s | _ => none)

/-- Strategy names occur with strictly increasing priority positions. -/
def ascendingPos : List SName → Bool
  | [] => true
  | [_] => true
  | a :: b :: t => decide (a.pos < b.pos) && ascendingPos (b :: t)

def metaCount (tr : List FEvent) : Nat := tr.countP (fun e => e.isMeta)

/-- Metadata-dependent strategies are OpenAlex and everything after it. -/
def metaDependent (s : SName) : Bool := decide (2 ≤ s.pos)

/-- No metadata fetch happens at or after the first metadata-dependent
strategy invocation. -/
def noMetaAfterDependent : List FEvent → Bool
  | [] => true
  | .strat s _ :: t =>
    if metaDependent s then t.all (fun e => !e.isMeta) else noMetaAfterDependent t
  | _ :: t => noMetaAfterDependent t

/-- No successful strategy event occurs anywhere in the trace. -/
def noSucc (tr : List FEvent) : Bool :=
  tr.all (fun e => match e with | .strat _ true => false | _ => true)

/-! ## Vision Element Matcher (`find_elements_by_vision_description`,
lines 1112–1293)

Candidate elements carry what the scorer reads from the DOM: visibility,
inner text, class/href/title attributes, and an optional bounding box.
Box centers are normalized with exact rational arithmetic. -/

structure VisionDescr where
  element_text : Str
  distinctive_features : List Str
  position : Str
deriving DecidableEq

structure BBox where
  x : ℚ
  y : ℚ
  w : ℚ
  h : ℚ
deriving DecidableEq

structure PageElem where
  visible : Bool
  text : Str
  cls : Str
  href : Str
  titleAttr : Str
  box : Option BBox
deriving DecidableEq

/-- Python `str.split()`: words separated by whitespace runs (structurally
recursive on a fuel bound so that it evaluates inside the kernel). -/
def splitWordsAux : Nat → Str → List Str
  | 0, _ => []
  | _ + 1, [] => []
  | fuel + 1, c :: t =>
    if isWs c then splitWordsAux fuel t
    else (c :: t.takeWhile (fun d => !isWs d)) :: splitWordsAux fuel (t.dropWhile (fun d => !isWs d))

def splitWords (s : Str) : List Str := splitWordsAux s.length s

/-- Embeds `set(word.lower() for word in s.split() if len(word) > 2)` as a list of
distinct words. -/
def wordSet (s : Str) : List Str :=
  (((splitWords s).filter (fun w => 2 < w.length)).map lowerStr).dedup

def interCount (a b : List Str) : Nat := (a.filter (fun w => b.contains w)).length

/-- Embeds `urlparse(u).netloc`: the authority after the scheme's `//`, if any. -/
def urlNetloc (s : Str) : Str :=
  let rest :=
    match stripLit "https://".data s with
    | some r => some r
    | none =>
      match stripLit "http://".data s with
      | some r => some r
      | none => stripLit "//".data s
  match rest with
  | some r => r.takeWhile (fun c => c ≠ '/' && c ≠ '?' && c ≠ '#')
  | none => []

def joinChar (sep : Char) : List Str → Str
  | [] => []
  | [a] => a
  | a :: rest => a ++ sep :: joinChar sep rest

/-- Embeds `'.'.join(domain.split('.')[-2:])`: the registrable base domain. -/
def domainBase (d : Str) : Str :=
  let parts := splitChar '.' d
  joinChar '.' (parts.drop (parts.length - 2))

def academicDomains : List Str :=
  [ "doi.org".data, "arxiv.org".data, "pubmed.ncbi.nlm.nih.gov".data, "pmc.ncbi.nlm.nih.gov".data ]

/-- The score contributions after the domain-containment gate: href path
bonus, distinctive-feature bonuses, and position matching. -/
def scoreTail (vr : VisionDescr) (e : PageElem)
    (elem_text elem_classes elem_href elem_title : Str) (vw vh : ℚ) (s : Int) : Int :=
  let s := if !elem_href.isEmpty &&
      (hasSub "/article/".data elem_href || hasSub "/doi/".data elem_href ||
        hasSub "/pdf".data elem_href) then s + 25 else s
  let s := vr.distinctive_features.foldl
    (fun acc f =>
      let fl := lowerStr f
      let acc := if hasSub fl elem_classes then acc + 15 else acc
      let acc := if hasSub fl elem_href then acc + 15 else acc
      let acc := if hasSub fl elem_title then acc + 10 else acc
      if hasSub "pdf".data fl && hasSub "pdf".data (lowerStr elem_text) then acc + 10 else acc)
    s
  let pd := lowerStr vr.position
  if !pd.isEmpty then
    match e.box with
    | some b =>
      let ex := (b.x + b.w / 2) / vw
      let ey := (b.y + b.h / 2) / vh
      let ps : Int :=
        if (hasSub "top".data pd || hasSub "above".data pd) && decide (ey < 3 / 10) then 40
        else if (hasSub "bottom".data pd || hasSub "below".data pd) && decide (7 / 10 < ey) then 40
        else if hasSub "right".data pd && decide (7 / 10 < ex) then 40
        else if hasSub "left".data pd && decide (ex < 3 / 10) then 40
        else if (hasSub "center".data pd || hasSub "middle".data pd) &&
            (decide (3 / 10 < ex) && decide (ex < 7 / 10) &&
              decide (3 / 10 < ey) && decide (ey < 7 / 10)) then 40
        else 0
      let ps := if (hasSub "toolbar".data pd || hasSub "header".data pd ||
          hasSub "below title".data pd) && decide (ey < 2 / 10) then ps + 50 else ps
      let ps := if (hasSub "below title".data pd || hasSub "near title".data pd) &&
          decide (ey < 3 / 10) then ps + 45 else ps
      let s := s + ps
      if 30 < ps then s + 30 else s
    | none => s
  else s

/-- Score one clickable element; the Boolean is `false` when the loop body
hits a `continue` (invisible element, or the external-domain penalty which
both subtracts 200 and skips the element). -/
def evalElement (vr : VisionDescr) (pageBase : Str) (vw vh : ℚ) (e : PageElem) :
    Int × Bool :=
  if !e.visible then (0, false)
  else
    let element_text := stripL vr.element_text
    let elem_text := stripL e.text
    let elem_classes := lowerStr e.cls
    let elem_href := lowerStr e.href
    let elem_title := lowerStr e.titleAttr
    let s : Int := 0
    let s :=
      if elem_text = element_text then s + 100
      else if lowerStr elem_text = lowerStr element_text then s + 95
      else if hasSub (lowerStr element_text) (lowerStr elem_text) then s + 60
      else s
    let ew := wordSet element_text
    let tw := wordSet elem_text
    let s := if !ew.isEmpty && !tw.isEmpty && decide (ew.length < 2 * interCount ew tw)
      then s + 40 else s
    let s := if hasSub "pdf".data (lowerStr element_text) && hasSub "pdf".data (lowerStr elem_text)
      then s + 30 else s
    let s := if hasSub "download".data (lowerStr element_text) &&
        hasSub "download".data (lowerStr elem_text) then s + 25 else s
    let s := if hasSub "pdf".data elem_href then s + 20 else s
    let afterDomain : Option Int :=
      if !elem_href.isEmpty && !pageBase.isEmpty then
        let hd := urlNetloc elem_href
        let hb := if hd.isEmpty then ([] : Str) else domainBase hd
        if !hb.isEmpty && hb ≠ pageBase then
          if academicDomains.any (fun ad => hasSub ad hb) then some (s + 5) else none
        else some (s + 30)
      else some s
    match afterDomain with
    | none => (s - 200, false)
    | some s2 => (scoreTail vr e elem_text elem_classes elem_href elem_title vw vh s2, true)

/-- Stable descending insertion (the order produced by Python's stable
`sorted(..., reverse=True)`). -/
def insertDesc (x : Int × PageElem) : List (Int × PageElem) → List (Int × PageElem)
  | [] => [x]
  | y :: t => if decide (y.1 ≤ x.1) then x :: y :: t else y :: insertDesc x t

def sortDesc : List (Int × PageElem) → List (Int × PageElem)
  | [] => []
  | a :: t => insertDesc a (sortDesc t)

/-- Embeds `find_elements_by_vision_description(page, vision_result)`. -/
def find_elements_by_vision_description (vr : Option VisionDescr) (pageUrl : Str)
    (vw vh : ℚ) (elems : List PageElem) : List (Int × PageElem) :=
  match vr with
  | none => []
  | some v =>
    let pageBase := domainBase (urlNetloc pageUrl)
    let cands := elems.foldr
      (fun e acc =>
        let r := evalElement v pageBase vw vh e
        if r.2 && decide (10 < r.1) then (r.1, e) :: acc else acc)
      []
    sortDesc cands

/-! # Helper lemmas -/

theorem regLookup_append_self (l : List (Str × Nat)) (d : Str) (idx : Nat)
    (h : regLookup l d = none) : regLookup (l ++ [(d, idx)]) d = some idx := by
  induction l with
  | nil => simp [regLookup]
  | cons kv t ih =>
    obtain ⟨k, v⟩ := kv
    by_cases hk : k = d <;> simp_all [regLookup, hk]

/-! # Claims -/

/-- C2: the artifact validator accepts exactly when all of its independent
predicates hold — file present, size at least 50000 bytes, `%PDF` header,
parseable with at least one page, and no supplementary-material substring
in the (lowercased) filename; in particular a 3KB `%PDF`-headed file and a
9MB well-formed `item005_suppinfo.pdf` are rejected, while a 50KB,
`%PDF`-headed, 1-page, non-supplementary file is accepted. -/
theorem C2_artifact_validator :
    (∀ f : FileInfo,
      is_valid_pdf f 50000 =
        (f.onDisk && decide (50000 ≤ f.size) && isPre "%PDF".data f.header &&
          pagesOk f.pages && !isSupplementary (lowerStr (baseName f.filename))))
    ∧ is_valid_pdf ⟨true, 3000, "%PDF".data, some 5, "item001_x.pdf".data⟩ 50000 = false
    ∧ is_valid_pdf ⟨true, 9000000, "%PDF".data, some 12, "item005_suppinfo.pdf".data⟩ 50000 = false
    ∧ is_valid_pdf ⟨true, 50000, "%PDF".data, some 1, "item001_10.1038_x1.pdf".data⟩ 50000 = true := by
  refine ⟨fun f => ?_, by decide, by decide, by decide⟩
  rcases f with ⟨o, sz, h, p, n⟩
  cases o <;> cases p <;>
    simp only [is_valid_pdf, pagesOk, Bool.not_true, Bool.not_false, Bool.false_and,
      Bool.true_and, Bool.and_false, Bool.and_true, if_true, if_false] <;>
    split_ifs <;> simp_all <;> omega

/-- C9: `check_duplicate` returns `true` exactly when the identifier is
present in the registry; in that case it writes exactly one stub file
(named `item{i:03d}_duplicate_of_item{orig:03d}`, containing the original
index and the shared identifier) and leaves the registry itself unchanged;
when it returns `false` it changes nothing; and `register_doi` is
idempotent — registering an already-present identifier keeps the existing
first-resolver mapping. -/
theorem C9_registry_contract :
    (∀ (doi : Option Str) (idx : Nat) (st : RegState),
      ((check_duplicate doi idx st).1 = true ↔
        ∃ d orig, doi = some d ∧ regLookup st.registry d = some orig))
    ∧ (∀ (d : Str) (orig idx : Nat) (st : RegState),
        regLookup st.registry d = some orig →
        check_duplicate (some d) idx st =
          (true, ⟨st.registry, st.stubs ++ [(mkStubName idx orig, mkStubContent orig d)]⟩))
    ∧ (∀ (doi : Option Str) (idx : Nat) (st : RegState),
        (check_duplicate doi idx st).1 = false → (check_duplicate doi idx st).2 = st)
    ∧ (∀ (doi : Option Str) (idx : Nat) (st : RegState),
        (check_duplicate doi idx st).2.registry = st.registry)
    ∧ (∀ (d : Str) (idx : Nat) (st : RegState),
        regLookup st.registry d ≠ none → register_doi (some d) idx st = st)
    ∧ (∀ (doi : Option Str) (idx idx2 : Nat) (st : RegState),
        register_doi doi idx2 (register_doi doi idx st) = register_doi doi idx st) := by
  refine ⟨?_, ?_, ?_, ?_, ?_, ?_⟩
  · intro doi idx st
    cases doi with
    | none => simp [check_duplicate]
    | some d =>
      cases h : regLookup st.registry d <;> simp [check_duplicate, h]
  · intro d orig idx st h
    simp [check_duplicate, h]
  · intro doi idx st
    cases doi with
    | none => intro; rfl
    | some d => cases h : regLookup st.registry d <;> simp [check_duplicate, h]
  · intro doi idx st
    cases doi with
    | none => rfl
    | some d => cases h : regLookup st.registry d <;> simp [check_duplicate, h]
  · intro d idx st h
    cases h2 : regLookup st.registry d with
    | none => exact absurd h2 h
    | some v => simp [register_doi, h2]
  · intro doi idx idx2 st
    cases doi with
    | none => rfl
    | some d =>
      cases h : regLookup st.registry d with
      | none =>
        have h2 := regLookup_append_self st.registry d idx h
        simp [register_doi, h, h2]
      | some v => simp [register_doi, h]

/-- C10: with a null identifier (no DOI extractable from the URL),
`check_duplicate` returns `false` without writing any stub and
`register_doi` leaves the registry unchanged — identifier-less items never
participate in deduplication in either direction. -/
theorem C10_null_identifier :
    ∀ (idx : Nat) (st : RegState),
      check_duplicate none idx st = (false, st) ∧ register_doi none idx st = st := by
  intro idx st
  exact ⟨rfl, rfl⟩

theorem C9_registry_contract_witness :
    check_duplicate (some "10.1/a".data) 2 ⟨[("10.1/a".data, 1)], []⟩ =
      (true, ⟨[("10.1/a".data, 1)], [(mkStubName 2 1, mkStubContent 1 "10.1/a".data)]⟩)
    ∧ register_doi (some "10.1/a".data) 3 ⟨[("10.1/a".data, 1)], []⟩ =
      ⟨[("10.1/a".data, 1)], []⟩ :=
  ⟨C9_registry_contract.2.1 "10.1/a".data 1 2 ⟨[("10.1/a".data, 1)], []⟩ (by decide),
   C9_registry_contract.2.2.2.2.1 "10.1/a".data 3 ⟨[("10.1/a".data, 1)], []⟩ (by decide)⟩

/-- C1 counterexample: an interleaving of two items sharing one identifier
in which both pass `check_duplicate` before either registers.  Both end in
the `original` state (both fetched a real artifact and ran
`register_doi`), no stub is written, and the registry holds only the first
item — so the claimed "no interleaving in which two items with the same
identifier both believe they are the original" is false of the code. -/
theorem C1_counterexample :
    (runSys ⟨⟨[], []⟩, [⟨1, some "10.1/a".data, .ini⟩, ⟨2, some "10.1/a".data, .ini⟩]⟩
        [0, 1, 0, 1]).items.map ItemState.pc = [.original, .original]
    ∧ (runSys ⟨⟨[], []⟩, [⟨1, some "10.1/a".data, .ini⟩, ⟨2, some "10.1/a".data, .ini⟩]⟩
        [0, 1, 0, 1]).reg.stubs = []
    ∧ (runSys ⟨⟨[], []⟩, [⟨1, some "10.1/a".data, .ini⟩, ⟨2, some "10.1/a".data, .ini⟩]⟩
        [0, 1, 0, 1]).reg.registry = [("10.1/a".data, 1)] := by
  refine ⟨by decide, by decide, by decide⟩

theorem regLookup_eq_none_iff (l : List (Str × Nat)) (d : Str) :
    regLookup l d = none ↔ d ∉ l.map Prod.fst := by
  induction l with
  | nil => simp [regLookup]
  | cons kv t ih =>
    obtain ⟨k, v⟩ := kv
    by_cases hk : k = d
    · subst hk; simp [regLookup]
    · have hdk : ¬d = k := fun h => hk h.symm
      simp [regLookup, hk, hdk, ih]

theorem regLookup_append_mono (l l2 : List (Str × Nat)) (d : Str) (v : Nat)
    (h : regLookup l d = some v) : regLookup (l ++ l2) d = some v := by
  induction l with
  | nil => simp [regLookup] at h
  | cons kv t ih =>
    obtain ⟨k, v0⟩ := kv
    by_cases hk : k = d <;> simp_all [regLookup, hk]

theorem check_duplicate_registry (doi : Option Str) (idx : Nat) (st : RegState) :
    (check_duplicate doi idx st).2.registry = st.registry := by
  cases doi with
  | none => rfl
  | some d => cases h : regLookup st.registry d <;> simp [check_duplicate, h]

theorem register_doi_nodup (doi : Option Str) (idx : Nat) (st : RegState)
    (h : (st.registry.map Prod.fst).Nodup) :
    ((register_doi doi idx st).registry.map Prod.fst).Nodup := by
  cases doi with
  | none => exact h
  | some d =>
    cases h2 : regLookup st.registry d with
    | none =>
      have hd : d ∉ st.registry.map Prod.fst := (regLookup_eq_none_iff _ _).mp h2
      simp only [register_doi, h2, List.map_append]
      simp [List.nodup_append, h, hd]
    | some v => simpa [register_doi, h2] using h

theorem register_doi_mono (doi : Option Str) (idx : Nat) (st : RegState) (d : Str) (v : Nat)
    (h : regLookup st.registry d = some v) :
    regLookup (register_doi doi idx st).registry d = some v := by
  cases doi with
  | none => exact h
  | some d2 =>
    cases h2 : regLookup st.registry d2 with
    | none =>
      simp only [register_doi, h2]
      exact regLookup_append_mono _ _ _ _ h
    | some v2 => simpa [register_doi, h2] using h

theorem stepSys_nodup (s : SysState) (k : Nat)
    (h : (s.reg.registry.map Prod.fst).Nodup) :
    ((stepSys s k).reg.registry.map Prod.fst).Nodup := by
  unfold stepSys
  cases hk : s.items[k]? with
  | none => exact h
  | some it =>
    simp only
    unfold stepItem
    cases it.pc <;> simp only
    · rw [check_duplicate_registry]; exact h
    · exact register_doi_nodup _ _ _ h
    · exact h
    · exact h

theorem stepSys_mono (s : SysState) (k : Nat) (d : Str) (v : Nat)
    (h : regLookup s.reg.registry d = some v) :
    regLookup (stepSys s k).reg.registry d = some v := by
  unfold stepSys
  cases hk : s.items[k]? with
  | none => exact h
  | some it =>
    simp only
    unfold stepItem
    cases it.pc <;> simp only
    · rw [check_duplicate_registry]; exact h
    · exact register_doi_mono _ _ _ _ _ h
    · exact h
    · exact h

/-- C1 amended: each registry operation is individually atomic and the
registry itself stays consistent under every interleaving — its keys stay
distinct, a registration is never overwritten (so at most one item index
is ever the registered original for an identifier), and an item whose
`check_duplicate` step runs after its identifier is registered is stubbed
without touching the registry.  (As `C1_counterexample` shows, this does
not extend to the claim as stated: two items sharing an identifier can
both pass `check_duplicate` before either registers, and then both fetch.) -/
theorem C1_registry_amended :
    ∀ (s0 : SysState) (sch : List Nat),
      (s0.reg.registry.map Prod.fst).Nodup →
      (((runSys s0 sch).reg.registry.map Prod.fst).Nodup
      ∧ (∀ (d : Str) (v : Nat), regLookup s0.reg.registry d = some v →
          regLookup (runSys s0 sch).reg.registry d = some v)
      ∧ (∀ (st : RegState) (it : ItemState) (d : Str), it.pc = .ini → it.doi = some d →
          regLookup st.registry d ≠ none →
          (stepItem st it).2.pc = .stubbed ∧ (stepItem st it).1.registry = st.registry)) := by
  intro s0 sch h0
  refine ⟨?_, ?_, ?_⟩
  · induction sch generalizing s0 with
    | nil => exact h0
    | cons k t ih => exact ih _ (stepSys_nodup _ _ h0)
  · intro d v hv
    induction sch generalizing s0 with
    | nil => exact hv
    | cons k t ih => exact ih _ (stepSys_nodup _ _ h0) (stepSys_mono _ _ _ _ hv)
  · intro st it d hpc hdoi hreg
    cases hl : regLookup st.registry d with
    | none => exact absurd hl hreg
    | some orig =>
      unfold stepItem
      rw [hpc]
      simp [hdoi, check_duplicate, hl]

theorem C1_registry_amended_witness :
    ((runSys ⟨⟨[("10.1/a".data, 1)], []⟩, [⟨2, some "10.1/a".data, .ini⟩]⟩ [0, 0]).reg.registry.map
        Prod.fst).Nodup
    ∧ regLookup (runSys ⟨⟨[("10.1/a".data, 1)], []⟩, [⟨2, some "10.1/a".data, .ini⟩]⟩
        [0, 0]).reg.registry "10.1/a".data = some 1 :=
  ⟨(C1_registry_amended ⟨⟨[("10.1/a".data, 1)], []⟩, [⟨2, some "10.1/a".data, .ini⟩]⟩ [0, 0]
      (by decide)).1,
   (C1_registry_amended ⟨⟨[("10.1/a".data, 1)], []⟩, [⟨2, some "10.1/a".data, .ini⟩]⟩ [0, 0]
      (by decide)).2.1 "10.1/a".data 1 (by decide)⟩

/-- C3: on the two candidates of the claim — a same-page "Download PDF"
link and an off-site "Related article" ad link — with description text
"Download PDF" and position "toolbar" on page domain journal.org, the
ranker scores the first at 270 and the second at −200: the second is
dropped by the external-domain penalty (score non-positive, element
skipped), so the returned ranking contains exactly the first candidate,
strictly above the second. -/
theorem C3_vision_ranking :
    find_elements_by_vision_description
        (some ⟨"Download PDF".data, [], "toolbar".data⟩)
        "https://journal.org/a".data 1280 720
        [ ⟨true, "Download PDF".data, [], "/doi/pdf/10.1/x".data, [], none⟩,
          ⟨true, "Related article".data, [], "https://ads.example.com/x".data, [], none⟩ ]
      = [(270, ⟨true, "Download PDF".data, [], "/doi/pdf/10.1/x".data, [], none⟩)]
    ∧ evalElement ⟨"Download PDF".data, [], "toolbar".data⟩ "journal.org".data 1280 720
        ⟨true, "Download PDF".data, [], "/doi/pdf/10.1/x".data, [], none⟩ = (270, true)
    ∧ evalElement ⟨"Download PDF".data, [], "toolbar".data⟩ "journal.org".data 1280 720
        ⟨true, "Related article".data, [], "https://ads.example.com/x".data, [], none⟩
      = (-200, false)
    ∧ (-200 : Int) ≤ 0 ∧ (-200 : Int) < 270 := by
  refine ⟨by decide, by decide, by decide, by decide, by decide⟩

/-- C8: a download strategy deletes a file that fails validation and
reports failure, and reports success only when the file it leaves behind
passed the validator: for `direct_download`, failure leaves no file at the
output path and success implies the written file is a valid PDF; for the
`try_scihub` mirror loop started with no file at the path, failure leaves
no file, and success implies the file passed both the size guard and the
validator. -/
theorem C8_validation_cleanup :
    (∀ (raises : Bool) (afterCurl : Option FileInfo),
      ((direct_download raises afterCurl).1 = false → (direct_download raises afterCurl).2 = none)
      ∧ ((direct_download raises afterCurl).1 = true →
          ∃ f, (direct_download raises afterCurl).2 = some f ∧ is_valid_pdf f 50000 = true))
    ∧ (∀ ms : List MirrorTry,
      ((try_scihub_loop none ms).1 = false → (try_scihub_loop none ms).2 = none)
      ∧ ((try_scihub_loop none ms).1 = true →
          ∃ f, (try_scihub_loop none ms).2 = some f ∧ is_valid_pdf f 50000 = true
            ∧ 50000 < f.size)) := by
  constructor
  · intro raises afterCurl
    cases raises
    · cases afterCurl with
      | none => simp [direct_download]
      | some f =>
        by_cases h : is_valid_pdf f 50000 = true
        · refine ⟨?_, ?_⟩ <;> simp [direct_download, h]
        · refine ⟨?_, ?_⟩ <;> simp_all [direct_download]
    · simp [direct_download]
  · intro ms
    induction ms with
    | nil => simp [try_scihub_loop]
    | cons m rest ih =>
      cases hb : m.body with
      | none => simpa [try_scihub_loop, hb] using ih
      | some b =>
        by_cases hna : hasSub "not available".data (lowerStr b) = true
        · simpa [try_scihub_loop, hb, hna] using ih
        · by_cases hpf : m.pdfFound = true
          · cases hw : m.written with
            | none => simpa [try_scihub_loop, hb, hna, hpf, hw] using ih
            | some f =>
              by_cases hv : (50000 < f.size && is_valid_pdf f 50000) = true
              · have hv2 := hv
                rw [Bool.and_eq_true] at hv2
                have heq : try_scihub_loop none (m :: rest) = (true, some f) := by
                  simp [try_scihub_loop, hb, hna, hpf, hw, hv]
                rw [heq]
                exact ⟨by simp, fun _ => ⟨f, rfl, hv2.2, by simpa using hv2.1⟩⟩
              · simpa [try_scihub_loop, hb, hna, hpf, hw, hv] using ih
          · simpa [try_scihub_loop, hb, hna, hpf] using ih

theorem C8_validation_cleanup_witness :
    (direct_download false (some ⟨true, 3000, "%PDF".data, some 5, "x.pdf".data⟩)).2 = none
    ∧ ∃ f, (try_scihub_loop none
        [⟨some "page".data, true, some ⟨true, 60000, "%PDF".data, some 4, "x.pdf".data⟩⟩]).2
          = some f ∧ is_valid_pdf f 50000 = true ∧ 50000 < f.size :=
  ⟨(C8_validation_cleanup.1 false (some ⟨true, 3000, "%PDF".data, some 5, "x.pdf".data⟩)).1
      (by decide),
   (C8_validation_cleanup.2
      [⟨some "page".data, true, some ⟨true, 60000, "%PDF".data, some 4, "x.pdf".data⟩⟩]).2
      (by decide)⟩

theorem isPreCI_self_append (p x : Str) : isPreCI p (p ++ x) = true := by
  induction p with
  | nil => rfl
  | cons a p ih => simp [isPreCI, ih]

theorem isPreCI_append_left (p a b : Str) (h : p.length ≤ a.length) :
    isPreCI p (a ++ b) = isPreCI p a := by
  induction p generalizing a with
  | nil => rfl
  | cons c p ih =>
    cases a with
    | nil => simp at h
    | cons e a2 =>
      simp only [List.cons_append, isPreCI, List.append_eq]
      rw [ih a2 (by simpa using h)]

theorem endsWithCI_append (suf d : Str) : endsWithCI suf (d ++ suf) = true := by
  unfold endsWithCI
  rw [List.reverse_append]
  exact isPreCI_self_append _ _

theorem endsWithCI_append_ne (suf other d : Str) (hlen : suf.length ≤ other.length)
    (hne : isPreCI suf.reverse other.reverse = false) :
    endsWithCI suf (d ++ other) = false := by
  unfold endsWithCI
  rw [List.reverse_append, isPreCI_append_left _ _ _ (by simpa using hlen)]
  exact hne

theorem dropEndCI_append (suf d : Str) : dropEndCI suf (d ++ suf) = d := by
  rw [dropEndCI, if_pos (endsWithCI_append suf d)]
  have h : (d ++ suf).length - suf.length = d.length := by simp [List.length_append]
  rw [h, List.take_left]

theorem dropEndCI_of_not (suf s : Str) (h : endsWithCI suf s = false) :
    dropEndCI suf s = s := by
  rw [dropEndCI, h]
  simp

/-- C6: identifier extraction is a pure function of the URL; it maps the
Nature article URL to the DOI `10.1038/s44160-023-00424-1` and the arXiv
URL to `2301.00001`; outside the Nature special case every DOI pattern
match is passed through the suffix stripper, which removes a trailing
`.pdf`, `/pdf`, `/full` or `/abstract` and leaves a suffix-free DOI
unchanged. -/
theorem C6_identifier_extraction :
    extract_doi_from_url "https://www.nature.com/articles/s44160-023-00424-1".data
      = some "10.1038/s44160-023-00424-1".data
    ∧ extract_identifier_from_url "https://arxiv.org/abs/2301.00001".data
      = some "2301.00001".data
    ∧ (∀ u : Str, searchPos natureScanAt u = none →
        extract_doi_from_url u =
          ((searchPos doiPrefAt u).or ((searchPos doiCore2At u).or
            (searchPos doiCore1At u))).map stripDoiSuffixes)
    ∧ (∀ d : Str,
        endsWithCI ".pdf".data d = false → endsWithCI "/pdf".data d = false →
        endsWithCI "/full".data d = false → endsWithCI "/abstract".data d = false →
        stripDoiSuffixes d = d
        ∧ stripDoiSuffixes (d ++ ".pdf".data) = d
        ∧ stripDoiSuffixes (d ++ "/pdf".data) = d
        ∧ stripDoiSuffixes (d ++ "/full".data) = d
        ∧ stripDoiSuffixes (d ++ "/abstract".data) = d) := by
  refine ⟨by decide, by decide, ?_, ?_⟩
  · intro u h
    unfold extract_doi_from_url
    rw [h]
    cases hp : searchPos doiPrefAt u with
    | some d => simp [Option.or]
    | none =>
      cases h2 : searchPos doiCore2At u with
      | some d => simp [Option.or]
      | none => cases h1 : searchPos doiCore1At u <;> simp [Option.or]
  · intro d h1 h2 h3 h4
    refine ⟨?_, ?_, ?_, ?_, ?_⟩
    · rw [stripDoiSuffixes, dropEndCI_of_not _ _ h1, dropEndCI_of_not _ _ h2,
        dropEndCI_of_not _ _ h3, dropEndCI_of_not _ _ h4]
    · rw [stripDoiSuffixes, dropEndCI_append, dropEndCI_of_not _ _ h2,
        dropEndCI_of_not _ _ h3, dropEndCI_of_not _ _ h4]
    · rw [stripDoiSuffixes,
        dropEndCI_of_not _ _ (endsWithCI_append_ne _ _ d (by decide) (by decide)),
        dropEndCI_append, dropEndCI_of_not _ _ h3, dropEndCI_of_not _ _ h4]
    · rw [stripDoiSuffixes,
        dropEndCI_of_not _ _ (endsWithCI_append_ne _ _ d (by decide) (by decide)),
        dropEndCI_of_not _ _ (endsWithCI_append_ne _ _ d (by decide) (by decide)),
        dropEndCI_append, dropEndCI_of_not _ _ h4]
    · rw [stripDoiSuffixes,
        dropEndCI_of_not _ _ (endsWithCI_append_ne _ _ d (by decide) (by decide)),
        dropEndCI_of_not _ _ (endsWithCI_append_ne _ _ d (by decide) (by decide)),
        dropEndCI_of_not _ _ (endsWithCI_append_ne _ _ d (by decide) (by decide)),
        dropEndCI_append]

theorem C6_identifier_extraction_witness :
    extract_doi_from_url "https://arxiv.org/abs/2301.00001".data =
      ((searchPos doiPrefAt "https://arxiv.org/abs/2301.00001".data).or
        ((searchPos doiCore2At "https://arxiv.org/abs/2301.00001".data).or
          (searchPos doiCore1At "https://arxiv.org/abs/2301.00001".data))).map stripDoiSuffixes
    ∧ stripDoiSuffixes ("10.1234/abc".data ++ ".pdf".data) = "10.1234/abc".data :=
  ⟨C6_identifier_extraction.2.2.1 "https://arxiv.org/abs/2301.00001".data (by decide),
   (C6_identifier_extraction.2.2.2 "10.1234/abc".data (by decide) (by decide) (by decide)
      (by decide)).2.1⟩

theorem isPre_self_append (p x : Str) : isPre p (p ++ x) = true := by
  induction p with
  | nil => rfl
  | cons a p ih => simp [isPre, ih]

theorem isPre_extend (a : Str) : ∀ (p x : Str), isPre a p = true → isPre a (p ++ x) = true := by
  induction a with
  | nil => intro p x _; rfl
  | cons c a2 ih =>
    intro p x h
    cases p with
    | nil => simp [isPre] at h
    | cons e p2 =>
      simp only [isPre, Bool.and_eq_true, beq_iff_eq] at h
      simp only [List.cons_append, isPre, Bool.and_eq_true, beq_iff_eq]
      exact ⟨h.1, ih p2 x h.2⟩

theorem stripLit_self_append (p r : Str) : stripLit p (p ++ r) = some r := by
  induction p with
  | nil => rfl
  | cons a p ih => simp [stripLit, ih]

theorem natReprAux_ne_nil (fuel n : Nat) (h : n < fuel) : natReprAux fuel n ≠ [] := by
  cases fuel with
  | zero => omega
  | succ f =>
    by_cases h10 : n < 10
    · simp [natReprAux, h10]
    · simp [natReprAux, h10]

theorem natReprAux_digits (fuel : Nat) :
    ∀ n, n < fuel → ∀ c ∈ natReprAux fuel n, c.isDigit = true := by
  induction fuel with
  | zero => intro n h; omega
  | succ f ih =>
    intro n h c hc
    by_cases h10 : n < 10
    · simp only [natReprAux, if_pos h10, List.mem_singleton] at hc
      subst hc
      interval_cases n <;> decide
    · simp only [natReprAux, if_neg h10, List.mem_append, List.mem_singleton] at hc
      rcases hc with hc | hc
      · have hdiv : n / 10 < f := by
          have := Nat.div_lt_self (by omega : 0 < n) (by omega : 1 < 10)
          omega
        exact ih (n / 10) hdiv c hc
      · subst hc
        have h10' : n % 10 < 10 := Nat.mod_lt _ (by omega)
        set m := n % 10 with hm
        interval_cases m <;> decide

theorem natVal_append_digit (l : Str) (c : Char) :
    natVal (l ++ [c]) = 10 * natVal l + (c.toNat - 48) := by
  unfold natVal
  rw [List.foldl_append]
  rfl

theorem natVal_natReprAux (fuel : Nat) : ∀ n, n < fuel → natVal (natReprAux fuel n) = n := by
  induction fuel with
  | zero => intro n h; omega
  | succ f ih =>
    intro n h
    by_cases h10 : n < 10
    · simp only [natReprAux, if_pos h10]
      show 10 * 0 + ((Nat.digitChar n).toNat - 48) = n
      interval_cases n <;> decide
    · simp only [natReprAux, if_neg h10]
      rw [natVal_append_digit]
      have hdiv : n / 10 < f := by
        have := Nat.div_lt_self (by omega : 0 < n) (by omega : 1 < 10)
        omega
      rw [ih _ hdiv]
      have h10' : n % 10 < 10 := Nat.mod_lt _ (by omega)
      have hd : (Nat.digitChar (n % 10)).toNat - 48 = n % 10 := by
        set m := n % 10 with hm
        interval_cases m <;> decide
      rw [hd]
      omega

theorem natVal_pad3 (i : Nat) : natVal (pad3 i) = i := by
  have hz : ∀ (k : Nat) (l : Str), natVal (List.replicate k '0' ++ l) = natVal l := by
    intro k
    induction k with
    | zero => intro l; rfl
    | succ k ih =>
      intro l
      show natVal ('0' :: (List.replicate k '0' ++ l)) = natVal l
      unfold natVal
      show List.foldl _ (10 * 0 + ('0'.toNat - 48)) _ = _
      have h0 : 10 * 0 + ('0'.toNat - 48) = 0 := by decide
      rw [h0]
      exact ih l
  unfold pad3
  rw [hz]
  exact natVal_natReprAux (i + 1) i (by omega)

theorem pad3_digits (i : Nat) : ∀ c ∈ pad3 i, c.isDigit = true := by
  intro c hc
  unfold pad3 at hc
  simp only [List.mem_append] at hc
  rcases hc with hc | hc
  · have := List.eq_of_mem_replicate hc
    subst this
    decide
  · exact natReprAux_digits (i + 1) i (by omega) c hc

theorem pad3_ne_nil (i : Nat) : pad3 i ≠ [] := by
  unfold pad3
  intro h
  rw [List.append_eq_nil] at h
  exact natReprAux_ne_nil (i + 1) i (by omega) h.2

theorem takeWhile_all_append (p : Char → Bool) (w : Str) (c : Char) (t : Str)
    (hw : ∀ x ∈ w, p x = true) (hc : p c = false) :
    (w ++ c :: t).takeWhile p = w := by
  induction w with
  | nil => simp [List.takeWhile_cons, hc]
  | cons a w2 ih =>
    rw [List.cons_append, List.takeWhile_cons, hw a (List.mem_cons_self _ _)]
    simp only [if_true]
    rw [ih (fun x hx => hw x (List.mem_cons_of_mem _ hx))]

theorem lastDotPdf_append (g : Str) : lastDotPdf (g ++ ".pdf".data) = some g := by
  induction g with
  | nil => decide
  | cons c g2 ih => simp [lastDotPdf, ih]

theorem splitFirstUnd_append (p s : Str) (hp : '_' ∉ p) :
    splitFirstUnd (p ++ '_' :: s) = some (p, s) := by
  induction p with
  | nil => simp [splitFirstUnd]
  | cons c p2 ih =>
    have hc : ¬(c = '_') := by
      intro h
      subst h
      exact hp (List.mem_cons_self _ _)
    simp only [List.cons_append, splitFirstUnd, if_neg hc, List.append_eq]
    rw [ih (fun hm => hp (List.mem_cons_of_mem _ hm))]

theorem map_noslash (l : Str) (h : '/' ∉ l) :
    l.map (fun c => if c = '/' then '_' else c) = l := by
  induction l with
  | nil => rfl
  | cons c t ih =>
    have hc : ¬(c = '/') := by
      intro hc
      subst hc
      exact h (List.mem_cons_self _ _)
    simp only [List.map_cons, if_neg hc]
    rw [ih (fun hm => h (List.mem_cons_of_mem _ hm))]

theorem slashToUnderscore_eq (p s : Str) (hp : '/' ∉ p) (hs : '/' ∉ s) :
    slashToUnderscore (p ++ '/' :: s) = p ++ '_' :: s := by
  unfold slashToUnderscore
  rw [List.map_append, List.map_cons, if_pos rfl, map_noslash p hp, map_noslash s hs]

/-- C7 counterexample: a DOI with two slashes breaks the round trip.  The
URL `https://x.com/doi/10.1234/abcd/efgh` yields the identifier
`10.1234/abcd/efgh` (registry key), the filename encodes it with all
slashes as underscores, but the startup scan splits only on the first
underscore, reconstructing `10.1234/abcd_efgh` — a different identifier —
so the original key is absent from the rebuilt registry. -/
theorem C7_counterexample :
    extract_doi_from_url "https://x.com/doi/10.1234/abcd/efgh".data
      = some "10.1234/abcd/efgh".data
    ∧ get_filename "https://x.com/doi/10.1234/abcd/efgh".data 1
      = "item001_10.1234_abcd_efgh.pdf".data
    ∧ init_downloaded_dois [get_filename "https://x.com/doi/10.1234/abcd/efgh".data 1]
      = [("10.1234/abcd_efgh".data, 1)]
    ∧ regLookup (init_downloaded_dois
        [get_filename "https://x.com/doi/10.1234/abcd/efgh".data 1])
        "10.1234/abcd/efgh".data = none := by
  refine ⟨by decide, by decide, by decide, by decide⟩

/-- C7 amended: the round trip holds for single-slash DOI identifiers.
For every item index `i` and identifier `d = p/s` where `p` starts with
`10.` and contains no underscore or slash and `s` contains no slash — the
shape of every DOI produced by the one-segment pattern — the encoded
filename scans back to exactly the registry entry `(d, i)`. -/
theorem C7_filename_roundtrip_amended :
    ∀ (url : Str) (i : Nat) (p s : Str),
      extract_doi_from_url url = some (p ++ '/' :: s) →
      isPre "10.".data p = true →
      '_' ∉ p → '/' ∉ p → '/' ∉ s →
      get_filename url i
        = "item".data ++ pad3 i ++ '_' :: (p ++ '_' :: s) ++ ".pdf".data
      ∧ init_downloaded_dois [get_filename url i] = [(p ++ '/' :: s, i)] := by
  intro url i p s hext hpre hup hslp hsls
  have hid : extract_identifier_from_url url = some (p ++ '_' :: s) := by
    unfold extract_identifier_from_url
    rw [hext]
    show some (slashToUnderscore (p ++ '/' :: s)) = some (p ++ '_' :: s)
    rw [slashToUnderscore_eq p s hslp hsls]
  have hname : get_filename url i
      = "item".data ++ pad3 i ++ '_' :: (p ++ '_' :: s) ++ ".pdf".data := by
    unfold get_filename
    rw [hid]
  refine ⟨hname, ?_⟩
  rw [hname]
  have hform : "item".data ++ pad3 i ++ '_' :: (p ++ '_' :: s) ++ ".pdf".data
      = "item".data ++ (pad3 i ++ '_' :: (p ++ '_' :: (s ++ ".pdf".data))) := by
    simp [List.append_assoc]
  have hpitem : isPre "item".data
      ("item".data ++ pad3 i ++ '_' :: (p ++ '_' :: s) ++ ".pdf".data) = true := by
    rw [hform]
    exact isPre_self_append _ _
  have hpend : endsWithStr ".pdf".data
      ("item".data ++ pad3 i ++ '_' :: (p ++ '_' :: s) ++ ".pdf".data) = true := by
    unfold endsWithStr
    rw [List.reverse_append]
    exact isPre_self_append _ _
  have hemp : (pad3 i).isEmpty = false := by
    cases hp3 : pad3 i with
    | nil => exact absurd hp3 (pad3_ne_nil i)
    | cons a b => rfl
  have hscan : scanItemFilename
      ("item".data ++ (pad3 i ++ '_' :: (p ++ '_' :: (s ++ ".pdf".data))))
      = some (i, p ++ '_' :: s) := by
    unfold scanItemFilename
    rw [stripLit_self_append]
    simp only
    rw [takeWhile_all_append Char.isDigit (pad3 i) '_' _ (pad3_digits i) (by decide)]
    rw [hemp]
    simp only [Bool.false_eq_true, if_false]
    have hlen : (pad3 i ++ '_' :: (p ++ '_' :: (s ++ ".pdf".data))).drop (pad3 i).length
        = '_' :: (p ++ '_' :: (s ++ ".pdf".data)) := List.drop_left _ _
    rw [hlen]
    simp only
    rw [show p ++ '_' :: (s ++ ".pdf".data) = (p ++ '_' :: s) ++ ".pdf".data by
      simp [List.append_assoc]]
    rw [lastDotPdf_append]
    simp only
    have hg : (p ++ '_' :: s).isEmpty = false := by
      cases p <;> rfl
    rw [hg]
    simp only [Bool.false_eq_true, if_false]
    rw [natVal_pad3]
  unfold init_downloaded_dois
  simp only [List.foldl]
  rw [hpitem, hpend]
  simp only [Bool.and_self, if_true]
  rw [hform, hscan]
  simp only
  rw [isPre_extend "10.".data p ('_' :: s) hpre]
  simp only [if_true]
  rw [splitFirstUnd_append p s hup]
  rfl

theorem C7_filename_roundtrip_amended_witness :
    get_filename "https://doi.org/10.1234/abc".data 1
      = "item".data ++ pad3 1 ++ '_' :: ("10.1234".data ++ '_' :: "abc".data) ++ ".pdf".data
    ∧ init_downloaded_dois [get_filename "https://doi.org/10.1234/abc".data 1]
      = [("10.1234".data ++ '/' :: "abc".data, 1)] :=
  C7_filename_roundtrip_amended "https://doi.org/10.1234/abc".data 1 "10.1234".data "abc".data
    (by decide) (by decide) (by decide) (by decide) (by decide)

theorem digit_not_ws {c : Char} (h : c.isDigit = true) : isWs c = false := by
  cases hw : isWs c
  · rfl
  · exfalso
    unfold isWs Char.isWhitespace at hw
    simp only [Bool.or_eq_true, decide_eq_true_eq] at hw
    rcases hw with ((h1 | h1) | h1) | h1 <;> subst h1 <;> exact absurd h (by decide)

theorem digit_ne {c d : Char} (h : c.isDigit = true) (hd : d.isDigit = false) : c ≠ d := by
  intro he
  rw [he, hd] at h
  exact Bool.false_ne_true h

theorem dropWhile_append_all (p : Char → Bool) (w x : Str) (hw : w.all p = true) :
    (w ++ x).dropWhile p = x.dropWhile p := by
  induction w with
  | nil => rfl
  | cons c w2 ih =>
    rw [List.all_cons, Bool.and_eq_true] at hw
    rw [List.cons_append, List.dropWhile_cons, if_pos hw.1]
    exact ih hw.2

theorem dropWhile_append_cases (p : Char → Bool) (u v : List Char) :
    (u ++ v).dropWhile p =
      (if (u.dropWhile p).isEmpty then v.dropWhile p else u.dropWhile p ++ v) := by
  induction u with
  | nil => rfl
  | cons c u2 ih =>
    cases hc : p c
    · rw [List.cons_append, List.dropWhile_cons, if_neg (by simp [hc]),
        List.dropWhile_cons, if_neg (by simp [hc])]
      simp [hc]
    · rw [List.cons_append, List.dropWhile_cons, if_pos hc, ih,
        List.dropWhile_cons, if_pos hc]

theorem rightStrip_block (x y : Str) (c : Char) (hc : isWs c = false) :
    ((x ++ c :: y).reverse.dropWhile isWs).reverse
      = x ++ c :: (y.reverse.dropWhile isWs).reverse := by
  have h1 : (x ++ c :: y).reverse = (y.reverse ++ [c]) ++ x.reverse := by
    simp [List.reverse_cons, List.append_assoc]
  rw [h1, dropWhile_append_cases, dropWhile_append_cases isWs y.reverse [c]]
  have hc1 : List.dropWhile isWs [c] = [c] := by
    rw [List.dropWhile_cons, if_neg (by simp [hc])]
  rw [hc1]
  by_cases hz : (y.reverse.dropWhile isWs).isEmpty = true
  · rw [if_pos hz]
    have hz2 : y.reverse.dropWhile isWs = [] := by
      cases hy : y.reverse.dropWhile isWs
      · rfl
      · rw [hy] at hz; simp at hz
    rw [hz2]
    simp
  · rw [if_neg hz]
    have hne : ¬((y.reverse.dropWhile isWs ++ [c]).isEmpty = true) := by
      cases hy : y.reverse.dropWhile isWs <;> simp [hy]
    rw [if_neg hne]
    simp [List.append_assoc]

theorem stripL_ws_front (a x : Str) (ha : a.all isWs = true) : stripL (a ++ x) = stripL x := by
  unfold stripL
  rw [dropWhile_append_all isWs a x ha]

theorem strip_decomp (l : Str) :
    l = l.takeWhile isWs ++ stripL l
        ++ ((l.dropWhile isWs).reverse.takeWhile isWs).reverse := by
  conv_lhs => rw [← List.takeWhile_append_dropWhile isWs l]
  rw [List.append_assoc]
  congr 1
  unfold stripL
  rw [← List.reverse_append, List.takeWhile_append_dropWhile, List.reverse_reverse]

theorem stripLit_some (p : Str) : ∀ s r, stripLit p s = some r → s = p ++ r := by
  induction p with
  | nil =>
    intro s r h
    simp only [stripLit, Option.some.injEq] at h
    simp [h]
  | cons a p2 ih =>
    intro s r h
    cases s with
    | nil => simp [stripLit] at h
    | cons b bs =>
      simp only [stripLit] at h
      by_cases hab : a = b
      · rw [if_pos hab] at h
        rw [List.cons_append, ← hab, ih bs r h]
      · rw [if_neg hab] at h
        exact absurd h (by simp)

theorem natRepr_ne_nil (i : Nat) : natRepr i ≠ [] :=
  natReprAux_ne_nil (i + 1) i (by omega)

theorem natRepr_digits (i : Nat) : ∀ c ∈ natRepr i, c.isDigit = true :=
  natReprAux_digits (i + 1) i (by omega)

theorem subCheckbox_skip (p : Str) (hp : '[' ∉ p) : ∀ l : Str,
    subCheckbox (p ++ l) = p ++ subCheckbox l := by
  induction p with
  | nil => intro l; rfl
  | cons c p2 ih =>
    intro l
    have hc : ¬(c = '[') := by
      intro h
      subst h
      exact hp (List.mem_cons_self _ _)
    have hp2 : '[' ∉ p2 := fun hm => hp (List.mem_cons_of_mem _ hm)
    simp only [List.cons_append, subCheckbox, if_neg hc, List.append_eq]
    rw [ih hp2]

theorem checkboxEnd_ws (w t : Str) (hw : w.all isWs = true) :
    checkboxEnd (w ++ ']' :: t) = some t := by
  unfold checkboxEnd
  rw [dropWhile_append_all isWs w _ hw, List.dropWhile_cons, if_neg (by simp [isWs])]
  rfl

theorem subCheckbox_hit (w t : Str) (hw : w.all isWs = true) :
    subCheckbox ('[' :: (w ++ ']' :: t)) = '[' :: 'x' :: ']' :: t := by
  show (if '[' = '[' then
      match checkboxEnd (w ++ ']' :: t) with
      | some t2 => '[' :: 'x' :: ']' :: t2
      | none => '[' :: subCheckbox (w ++ ']' :: t)
    else '[' :: subCheckbox (w ++ ']' :: t)) = '[' :: 'x' :: ']' :: t
  rw [if_pos rfl, checkboxEnd_ws w t hw]

theorem uncheckedAfterDot_decomp (r : Str) (h : uncheckedAfterDot r = true) :
    ∃ w1 w2 t, r = w1 ++ '[' :: (w2 ++ ']' :: t)
      ∧ w1.all isWs = true ∧ w2.all isWs = true := by
  unfold uncheckedAfterDot at h
  split at h
  next r2 hd =>
    split at h
    next t hd2 =>
      refine ⟨r.takeWhile isWs, r2.takeWhile isWs, t, ?_, ?_, ?_⟩
      · conv_lhs => rw [← List.takeWhile_append_dropWhile isWs r]
        rw [hd]
        congr 1
        congr 1
        conv_lhs => rw [← List.takeWhile_append_dropWhile isWs r2]
        rw [hd2]
      · exact List.all_eq_true.mpr (fun c hc => List.mem_takeWhile_imp hc)
      · exact List.all_eq_true.mpr (fun c hc => List.mem_takeWhile_imp hc)
    next => exact absurd h (by simp)
  next => exact absurd h (by simp)

theorem matchesUncheckedRow_decomp (i : Nat) (line : Str)
    (h : matchesUncheckedRow i line = true) :
    ∃ a w1 w2 t b,
      line = a ++ (natRepr i ++ '.' :: (w1 ++ '[' :: (w2 ++ ']' :: t))) ++ b
      ∧ a.all isWs = true ∧ w1.all isWs = true ∧ w2.all isWs = true ∧ b.all isWs = true := by
  unfold matchesUncheckedRow at h
  cases hs : stripLit (natRepr i ++ ['.']) (stripL line) with
  | none => rw [hs] at h; exact absurd h (by simp)
  | some r =>
    rw [hs] at h
    have hsl : stripL line = (natRepr i ++ ['.']) ++ r := stripLit_some _ _ _ hs
    obtain ⟨w1, w2, t, hr, hw1, hw2⟩ := uncheckedAfterDot_decomp r h
    refine ⟨line.takeWhile isWs, w1, w2, t,
      ((line.dropWhile isWs).reverse.takeWhile isWs).reverse, ?_, ?_, hw1, hw2, ?_⟩
    · conv_lhs => rw [strip_decomp line]
      rw [hsl, hr]
      simp [List.append_assoc]
    · exact List.all_eq_true.mpr (fun c hc => List.mem_takeWhile_imp hc)
    · refine List.all_eq_true.mpr (fun c hc => ?_)
      rw [List.mem_reverse] at hc
      exact List.mem_takeWhile_imp hc

theorem matchesUncheckedRow_marked (i : Nat) (a w1 z : Str)
    (ha : a.all isWs = true) (hw1 : w1.all isWs = true) :
    matchesUncheckedRow i (a ++ (natRepr i ++ '.' :: (w1 ++ '[' :: 'x' :: ']' :: z)))
      = false := by
  unfold matchesUncheckedRow
  rw [stripL_ws_front _ _ ha]
  obtain ⟨c0, nr', hnr⟩ : ∃ c0 nr', natRepr i = c0 :: nr' := by
    cases hh : natRepr i with
    | nil => exact absurd hh (natRepr_ne_nil i)
    | cons c0 nr' => exact ⟨c0, nr', rfl⟩
  have hc0 : isWs c0 = false :=
    digit_not_ws (natRepr_digits i c0 (by rw [hnr]; exact List.mem_cons_self _ _))
  have hfront : (natRepr i ++ '.' :: (w1 ++ '[' :: 'x' :: ']' :: z)).dropWhile isWs
      = natRepr i ++ '.' :: (w1 ++ '[' :: 'x' :: ']' :: z) := by
    rw [hnr, List.cons_append, List.dropWhile_cons, if_neg (by simp [hc0])]
  unfold stripL
  rw [hfront]
  have hshape : natRepr i ++ '.' :: (w1 ++ '[' :: 'x' :: ']' :: z)
      = (natRepr i ++ '.' :: w1 ++ ['[', 'x']) ++ ']' :: z := by
    simp [List.append_assoc]
  rw [hshape, rightStrip_block _ _ _ (by decide)]
  have hre : (natRepr i ++ '.' :: w1 ++ ['[', 'x']) ++ ']' :: (z.reverse.dropWhile isWs).reverse
      = (natRepr i ++ ['.'])
        ++ (w1 ++ '[' :: 'x' :: ']' :: (z.reverse.dropWhile isWs).reverse) := by
    simp [List.append_assoc]
  rw [hre, stripLit_self_append]
  show uncheckedAfterDot _ = false
  unfold uncheckedAfterDot
  rw [dropWhile_append_all isWs w1 _ hw1, List.dropWhile_cons, if_neg (by decide)]
  show (match ('x' :: ']' :: (z.reverse.dropWhile isWs).reverse).dropWhile isWs with
    | ']' :: _ => true
    | _ => false) = false
  rw [List.dropWhile_cons, if_neg (by decide)]
  rfl

theorem applyMark_marked (i : Nat) (line : Str) (h : matchesUncheckedRow i line = true) :
    ∃ pre w post, line = pre ++ '[' :: (w ++ ']' :: post)
      ∧ w.all isWs = true ∧ '[' ∉ pre
      ∧ applyMark i line = pre ++ '[' :: 'x' :: ']' :: post
      ∧ matchesUncheckedRow i (applyMark i line) = false := by
  obtain ⟨a, w1, w2, t, b, hline, ha, hw1, hw2, hb⟩ := matchesUncheckedRow_decomp i line h
  have hpre : '[' ∉ a ++ natRepr i ++ '.' :: w1 := by
    intro hm
    rcases List.mem_append.mp hm with hm | hm
    · rcases List.mem_append.mp hm with hm | hm
      · rw [List.all_eq_true] at ha
        exact absurd (ha _ hm) (by decide)
      · exact absurd (natRepr_digits i _ hm) (by decide)
    · rcases List.mem_cons.mp hm with hm | hm
      · exact absurd hm (by decide)
      · rw [List.all_eq_true] at hw1
        exact absurd (hw1 _ hm) (by decide)
  have heq : applyMark i line
      = (a ++ natRepr i ++ '.' :: w1) ++ '[' :: 'x' :: ']' :: (t ++ b) := by
    unfold applyMark
    rw [if_pos h, hline]
    have hassoc : a ++ (natRepr i ++ '.' :: (w1 ++ '[' :: (w2 ++ ']' :: t))) ++ b
        = (a ++ natRepr i ++ '.' :: w1) ++ ('[' :: (w2 ++ ']' :: (t ++ b))) := by
      simp [List.append_assoc]
    rw [hassoc, subCheckbox_skip _ hpre, subCheckbox_hit w2 _ hw2]
  have hmark : matchesUncheckedRow i (applyMark i line) = false := by
    rw [heq]
    have hshape2 : (a ++ natRepr i ++ '.' :: w1) ++ '[' :: 'x' :: ']' :: (t ++ b)
        = a ++ (natRepr i ++ '.' :: (w1 ++ '[' :: 'x' :: ']' :: (t ++ b))) := by
      simp [List.append_assoc]
    rw [hshape2]
    exact matchesUncheckedRow_marked i a w1 (t ++ b) ha hw1
  refine ⟨a ++ natRepr i ++ '.' :: w1, w2, t ++ b, ?_, hw2, hpre, heq, hmark⟩
  rw [hline]
  simp [List.append_assoc]

/-- C5: `update_checklist i` rewrites only lines whose (stripped) text
begins with index `i`, a dot, and an empty checkbox, replacing exactly
that checkbox's interior with `x`; any line not of that form — any other
row, and row `i` once it is checked — is byte-for-byte unchanged, so an
all-checked (or otherwise non-matching) file is returned identical, and
applying the update twice equals applying it once. -/
theorem C5_checklist_update :
    (∀ (i : Nat) (line : Str), matchesUncheckedRow i line = false → applyMark i line = line)
    ∧ (∀ (i : Nat) (lines : List Str), (∀ l ∈ lines, matchesUncheckedRow i l = false) →
        update_checklist i lines = lines)
    ∧ (∀ (i : Nat) (line : Str), matchesUncheckedRow i line = true →
        ∃ pre w post, line = pre ++ '[' :: (w ++ ']' :: post)
          ∧ w.all isWs = true ∧ '[' ∉ pre
          ∧ applyMark i line = pre ++ '[' :: 'x' :: ']' :: post)
    ∧ (∀ (i : Nat) (lines : List Str),
        update_checklist i (update_checklist i lines) = update_checklist i lines) := by
  have h1 : ∀ (i : Nat) (line : Str), matchesUncheckedRow i line = false →
      applyMark i line = line := by
    intro i line h
    unfold applyMark
    rw [h]
    simp
  refine ⟨h1, ?_, ?_, ?_⟩
  · intro i lines h
    unfold update_checklist
    induction lines with
    | nil => rfl
    | cons l t ih =>
      rw [List.map_cons, h1 i l (h l (List.mem_cons_self _ _)),
        ih (fun x hx => h x (List.mem_cons_of_mem _ hx))]
  · intro i line h
    obtain ⟨pre, w, post, hl, hw, hp, he, _⟩ := applyMark_marked i line h
    exact ⟨pre, w, post, hl, hw, hp, he⟩
  · intro i lines
    have hid : ∀ x : Str, applyMark i (applyMark i x) = applyMark i x := by
      intro x
      cases hx : matchesUncheckedRow i x with
      | false => rw [h1 i x hx, h1 i x hx]
      | true =>
        obtain ⟨_, _, _, _, _, _, _, hm⟩ := applyMark_marked i x hx
        exact h1 i _ hm
    unfold update_checklist
    induction lines with
    | nil => rfl
    | cons l t ih => rw [List.map_cons, List.map_cons, hid l, ih]

theorem C5_checklist_update_witness :
    applyMark 7 "8. [ ] https://b".data = "8. [ ] https://b".data
    ∧ update_checklist 7 ["7. [x] https://a".data] = ["7. [x] https://a".data]
    ∧ ∃ pre w post, "7. [ ] https://a".data = pre ++ '[' :: (w ++ ']' :: post)
        ∧ w.all isWs = true ∧ '[' ∉ pre
        ∧ applyMark 7 "7. [ ] https://a".data = pre ++ '[' :: 'x' :: ']' :: post :=
  ⟨C5_checklist_update.1 7 "8. [ ] https://b".data (by decide),
   C5_checklist_update.2.1 7 ["7. [x] https://a".data] (by decide),
   C5_checklist_update.2.2.1 7 "7. [ ] https://a".data (by decide)⟩

theorem stratSeq_append (tr ext : List FEvent) :
    stratSeq (tr ++ ext) = stratSeq tr ++ stratSeq ext :=
  List.filterMap_append _ _ _

theorem metaCount_append (tr ext : List FEvent) :
    metaCount (tr ++ ext) = metaCount tr + metaCount ext :=
  List.countP_append _ _ _

theorem noStrat_of_noSucc (tr : List FEvent) (h : noSucc tr = true) :
    noStratAfterSuccess tr = true := by
  induction tr with
  | nil => rfl
  | cons e t ih =>
    unfold noSucc at h
    rw [List.all_cons, Bool.and_eq_true] at h
    cases e with
    | dupCheck b => exact ih h.2
    | meta => exact ih h.2
    | strat s ok =>
      cases ok
      · exact ih h.2
      · exact absurd h.1 (by simp)

theorem noStrat_append_succ (tr : List FEvent) (n : SName) (ok : Bool)
    (h : noSucc tr = true) :
    noStratAfterSuccess (tr ++ [.strat n ok]) = true := by
  induction tr with
  | nil => cases ok <;> rfl
  | cons e t ih =>
    unfold noSucc at h
    rw [List.all_cons, Bool.and_eq_true] at h
    cases e with
    | dupCheck b => exact ih h.2
    | meta => exact ih h.2
    | strat s ok2 =>
      cases ok2
      · exact ih h.2
      · exact absurd h.1 (by simp)

theorem noSucc_append_one (tr : List FEvent) (e : FEvent)
    (h : noSucc tr = true)
    (he : (match e with | FEvent.strat _ true => false | _ => true) = true) :
    noSucc (tr ++ [e]) = true := by
  unfold noSucc at h ⊢
  rw [List.all_append, Bool.and_eq_true]
  exact ⟨h, by simpa using he⟩

theorem ascendingPos_append_one (l : List SName) (n : SName)
    (h : ascendingPos l = true) (hb : ∀ s ∈ l, s.pos < n.pos) :
    ascendingPos (l ++ [n]) = true := by
  induction l with
  | nil => rfl
  | cons a t ih =>
    cases t with
    | nil =>
      show ascendingPos (a :: [n]) = true
      unfold ascendingPos
      rw [Bool.and_eq_true]
      exact ⟨by simpa using hb a (List.mem_cons_self _ _), rfl⟩
    | cons b t2 =>
      unfold ascendingPos at h
      rw [Bool.and_eq_true] at h
      have hrec := ih h.2 (fun s hs => hb s (List.mem_cons_of_mem _ hs))
      show (decide (a.pos < b.pos) && ascendingPos (b :: (t2 ++ [n]))) = true
      rw [Bool.and_eq_true]
      exact ⟨h.1, by simpa using hrec⟩

theorem noMeta_all (ext : List FEvent) (h : ext.all (fun e => !e.isMeta) = true) :
    noMetaAfterDependent ext = true := by
  induction ext with
  | nil => rfl
  | cons e t ih =>
    rw [List.all_cons, Bool.and_eq_true] at h
    cases e with
    | dupCheck b => exact ih h.2
    | meta => simp [FEvent.isMeta] at h
    | strat s ok =>
      show (if metaDependent s then t.all (fun e => !e.isMeta)
        else noMetaAfterDependent t) = true
      by_cases hd : metaDependent s = true
      · rw [if_pos hd]; exact h.2
      · rw [if_neg hd]; exact ih h.2

theorem noMetaAfterDependent_append (tr ext : List FEvent)
    (h : noMetaAfterDependent tr = true) (hext : ext.all (fun e => !e.isMeta) = true) :
    noMetaAfterDependent (tr ++ ext) = true := by
  induction tr with
  | nil => exact noMeta_all ext hext
  | cons e t ih =>
    cases e with
    | dupCheck b => exact ih h
    | meta => exact ih h
    | strat s ok =>
      show (if metaDependent s then (t ++ ext).all (fun e => !e.isMeta)
        else noMetaAfterDependent (t ++ ext)) = true
      by_cases hd : metaDependent s = true
      · rw [if_pos hd]
        have h' : t.all (fun e => !e.isMeta) = true := by
          have h0 : (if metaDependent s then t.all (fun e => !e.isMeta)
              else noMetaAfterDependent t) = true := h
          rwa [if_pos hd] at h0
        rw [List.all_append, Bool.and_eq_true]
        exact ⟨h', hext⟩
      · rw [if_neg hd]
        have h' : noMetaAfterDependent t = true := by
          have h0 : (if metaDependent s then t.all (fun e => !e.isMeta)
              else noMetaAfterDependent t) = true := h
          rwa [if_neg hd] at h0
        exact ih h'

theorem noMetaAfterDependent_append_meta (tr : List FEvent)
    (h : ∀ s ∈ stratSeq tr, metaDependent s = false) :
    noMetaAfterDependent (tr ++ [.meta]) = true := by
  induction tr with
  | nil => rfl
  | cons e t ih =>
    cases e with
    | dupCheck b => exact ih h
    | meta => exact ih h
    | strat s2 ok =>
      show (if metaDependent s2 then (t ++ [FEvent.meta]).all (fun e => !e.isMeta)
        else noMetaAfterDependent (t ++ [FEvent.meta])) = true
      have hs2 : metaDependent s2 = false := h s2 (List.mem_cons_self _ _)
      rw [if_neg (by simp [hs2])]
      exact ih (fun s hs => h s (List.mem_cons_of_mem _ hs))

theorem metaCount_strat_nil (n : SName) (ok : Bool) :
    metaCount [FEvent.strat n ok] = 0 := by
  simp [metaCount, List.countP_cons, FEvent.isMeta]

theorem runChain_props (doi : Option Str) (idx : Nat) :
    ∀ (specs : List StratSpec) (st : RegState) (tr : List FEvent),
      noSucc tr = true →
      ascendingPos (stratSeq tr) = true →
      (∀ s ∈ stratSeq tr, ∀ sp ∈ specs, s.pos < sp.name.pos) →
      specs.Pairwise (fun a b => a.name.pos < b.name.pos) →
      noMetaAfterDependent tr = true →
      noStratAfterSuccess (runChain doi idx st tr specs).2.2 = true
      ∧ ascendingPos (stratSeq (runChain doi idx st tr specs).2.2) = true
      ∧ metaCount (runChain doi idx st tr specs).2.2 = metaCount tr
      ∧ noMetaAfterDependent (runChain doi idx st tr specs).2.2 = true
      ∧ ((runChain doi idx st tr specs).1.ok = false →
          noSucc (runChain doi idx st tr specs).2.2 = true)
      ∧ (∀ s ∈ stratSeq (runChain doi idx st tr specs).2.2,
          s ∈ stratSeq tr ∨ ∃ sp ∈ specs, sp.name = s) := by
  intro specs
  induction specs with
  | nil =>
    intro st tr h1 h2 _h3 _h4 h5
    exact ⟨noStrat_of_noSucc tr h1, h2, rfl, h5, fun _ => h1, fun s hs => Or.inl hs⟩
  | cons sp rest ih =>
    intro st tr h1 h2 h3 h4 h5
    rw [List.pairwise_cons] at h4
    have hbs : ∀ s ∈ stratSeq tr, s.pos < sp.name.pos :=
      fun s hs => h3 s hs sp (List.mem_cons_self _ _)
    have hseq1 : stratSeq (tr ++ [FEvent.strat sp.name sp.ok])
        = stratSeq tr ++ [sp.name] := by
      rw [stratSeq_append]; rfl
    have hasc1 : ascendingPos (stratSeq (tr ++ [FEvent.strat sp.name sp.ok])) = true := by
      rw [hseq1]
      exact ascendingPos_append_one _ _ h2 hbs
    have hmc1 : metaCount (tr ++ [FEvent.strat sp.name sp.ok]) = metaCount tr := by
      rw [metaCount_append, metaCount_strat_nil]
      omega
    have hnm1 : noMetaAfterDependent (tr ++ [FEvent.strat sp.name sp.ok]) = true :=
      noMetaAfterDependent_append tr _ h5 (by simp [FEvent.isMeta])
    by_cases hgo : sp.go = true
    · by_cases hok : sp.ok = true
      · have hrun : runChain doi idx st tr (sp :: rest)
            = (⟨idx, true, sp.src⟩, register_doi doi idx st,
              tr ++ [FEvent.strat sp.name sp.ok]) := by
          conv_lhs => unfold runChain
          rw [if_pos hgo, if_pos hok]
        rw [hrun]
        refine ⟨noStrat_append_succ tr sp.name sp.ok h1, hasc1, hmc1, hnm1,
          by intro hfo; simp at hfo, ?_⟩
        intro s hs
        rw [hseq1] at hs
        rcases List.mem_append.mp hs with hs | hs
        · exact Or.inl hs
        · exact Or.inr ⟨sp, List.mem_cons_self _ _, (List.mem_singleton.mp hs).symm⟩
      · have hokf : sp.ok = false := by revert hok; cases sp.ok <;> simp
        have hrun : runChain doi idx st tr (sp :: rest)
            = runChain doi idx st (tr ++ [FEvent.strat sp.name sp.ok]) rest := by
          conv_lhs => unfold runChain
          rw [if_pos hgo, if_neg hok]
        rw [hrun]
        have hns1 : noSucc (tr ++ [FEvent.strat sp.name sp.ok]) = true := by
          refine noSucc_append_one tr _ h1 ?_
          rw [hokf]
        have h3' : ∀ s ∈ stratSeq (tr ++ [FEvent.strat sp.name sp.ok]),
            ∀ sp' ∈ rest, s.pos < sp'.name.pos := by
          intro s hs sp' hsp'
          rw [hseq1] at hs
          rcases List.mem_append.mp hs with hs | hs
          · exact h3 s hs sp' (List.mem_cons_of_mem _ hsp')
          · rw [List.mem_singleton.mp hs]
            exact h4.1 sp' hsp'
        obtain ⟨c1, c2, c3, c4, c5, c6⟩ :=
          ih st (tr ++ [FEvent.strat sp.name sp.ok]) hns1 hasc1 h3' h4.2 hnm1
        refine ⟨c1, c2, by rw [c3, hmc1], c4, c5, ?_⟩
        intro s hs
        rcases c6 s hs with hs2 | ⟨sp', hsp', hname⟩
        · rw [hseq1] at hs2
          rcases List.mem_append.mp hs2 with hs3 | hs3
          · exact Or.inl hs3
          · exact Or.inr ⟨sp, List.mem_cons_self _ _, (List.mem_singleton.mp hs3).symm⟩
        · exact Or.inr ⟨sp', List.mem_cons_of_mem _ hsp', hname⟩
    · have hrun : runChain doi idx st tr (sp :: rest) = runChain doi idx st tr rest := by
        conv_lhs => rw [runChain]
        rw [if_neg hgo]
      rw [hrun]
      have h3' : ∀ s ∈ stratSeq tr, ∀ sp' ∈ rest, s.pos < sp'.name.pos :=
        fun s hs sp' hsp' => h3 s hs sp' (List.mem_cons_of_mem _ hsp')
      obtain ⟨c1, c2, c3, c4, c5, c6⟩ := ih st tr h1 h2 h3' h4.2 h5
      refine ⟨c1, c2, c3, c4, c5, ?_⟩
      intro s hs
      rcases c6 s hs with hs2 | ⟨sp', hsp', hname⟩
      · exact Or.inl hs2
      · exact Or.inr ⟨sp', List.mem_cons_of_mem _ hsp', hname⟩

theorem ascending_head (x : SName) : ∀ l, ascendingPos (x :: l) = true →
    ∀ y ∈ l, x.pos < y.pos := by
  intro l
  induction l generalizing x with
  | nil => intro _ y hy; exact absurd hy (List.not_mem_nil _)
  | cons b t ih =>
    intro h y hy
    unfold ascendingPos at h
    rw [Bool.and_eq_true, decide_eq_true_eq] at h
    rcases List.mem_cons.mp hy with hy1 | hy2
    · rw [hy1]; exact h.1
    · exact Nat.lt_trans h.1 (ih b h.2 y hy2)

theorem ascending_tail (x : SName) (l : List SName) (h : ascendingPos (x :: l) = true) :
    ascendingPos l = true := by
  cases l with
  | nil => rfl
  | cons b t =>
    unfold ascendingPos at h
    rw [Bool.and_eq_true] at h
    exact h.2

theorem spec_pairwise_of_ascending : ∀ (l : List StratSpec),
    ascendingPos (l.map StratSpec.name) = true →
    l.Pairwise (fun a b => a.name.pos < b.name.pos) := by
  intro l
  induction l with
  | nil => intro _; exact List.Pairwise.nil
  | cons a t ih =>
    intro h
    rw [List.map_cons] at h
    refine List.Pairwise.cons ?_ (ih (ascending_tail _ _ h))
    intro b hb
    exact ascending_head a.name _ h b.name (List.mem_map_of_mem _ hb)

/-- C4: the fast chain tries its strategies in the fixed priority order
(direct, open-access patterns, OpenAlex, CORE, Semantic Scholar, BASE,
OpenAIRE, DOAJ, ResearchGate, 12ft.io, Sci-Hub, Google Scholar) — the
trace's strategy events always occur at strictly increasing priority
positions — no strategy event ever follows a successful one, bibliographic
metadata is fetched at most once per item, and never at or after the first
metadata-dependent strategy invocation. -/
theorem C4_fast_chain_order :
    ∀ (o : FastOracle) (idx : Nat) (url : Str) (st : RegState),
      noStratAfterSuccess (process_item_fast o idx url st).2.2 = true
      ∧ ascendingPos (stratSeq (process_item_fast o idx url st).2.2) = true
      ∧ metaCount (process_item_fast o idx url st).2.2 ≤ 1
      ∧ noMetaAfterDependent (process_item_fast o idx url st).2.2 = true := by
  intro o idx url st
  simp only [process_item_fast]
  by_cases hdup : (check_duplicate (extract_doi_from_url url) idx st).1 = true
  · rw [if_pos hdup]
    refine ⟨?_, ?_, ?_, ?_⟩
    · show noStratAfterSuccess [FEvent.dupCheck true] = true
      decide
    · show ascendingPos (stratSeq [FEvent.dupCheck true]) = true
      decide
    · show metaCount [FEvent.dupCheck true] ≤ 1
      decide
    · show noMetaAfterDependent [FEvent.dupCheck true] = true
      decide
  · rw [if_neg hdup]
    by_cases hex : o.existsValid = true
    · rw [if_pos hex]
      refine ⟨?_, ?_, ?_, ?_⟩
      · show noStratAfterSuccess [FEvent.dupCheck false] = true
        decide
      · show ascendingPos (stratSeq [FEvent.dupCheck false]) = true
        decide
      · show metaCount [FEvent.dupCheck false] ≤ 1
        decide
      · show noMetaAfterDependent [FEvent.dupCheck false] = true
        decide
    · rw [if_neg hex]
      obtain ⟨p1, p2, p3, p4, p5, p6⟩ :=
        runChain_props (extract_doi_from_url url) idx
          [ ⟨.direct,
              endsWithStr ".pdf".data (lowerStr url) || hasSub "/pdf".data (lowerStr url),
              o.sDirect, "direct".data⟩,
            ⟨.openaccess, true, o.sOpenAccess, "openaccess".data⟩ ]
          st [FEvent.dupCheck false]
          (by decide) (by decide)
          (by intro s hs; simp [stratSeq] at hs)
          (by
            refine spec_pairwise_of_ascending _ ?_
            show ascendingPos [SName.direct, SName.openaccess] = true
            decide)
          (by decide)
      by_cases hr1 : (runChain (extract_doi_from_url url) idx st [FEvent.dupCheck false]
          [ ⟨.direct,
              endsWithStr ".pdf".data (lowerStr url) || hasSub "/pdf".data (lowerStr url),
              o.sDirect, "direct".data⟩,
            ⟨.openaccess, true, o.sOpenAccess, "openaccess".data⟩ ]).1.ok = true
      · rw [if_pos hr1]
        refine ⟨p1, p2, ?_, p4⟩
        rw [p3]
        decide
      · rw [if_neg hr1]
        have hr1f : (runChain (extract_doi_from_url url) idx st [FEvent.dupCheck false]
            [ ⟨.direct,
                endsWithStr ".pdf".data (lowerStr url) || hasSub "/pdf".data (lowerStr url),
                o.sDirect, "direct".data⟩,
              ⟨.openaccess, true, o.sOpenAccess, "openaccess".data⟩ ]).1.ok = false := by
          revert hr1
          cases (runChain (extract_doi_from_url url) idx st [FEvent.dupCheck false]
            [ ⟨.direct,
                endsWithStr ".pdf".data (lowerStr url) || hasSub "/pdf".data (lowerStr url),
                o.sDirect, "direct".data⟩,
              ⟨.openaccess, true, o.sOpenAccess, "openaccess".data⟩ ]).1.ok <;> simp
        have hns := p5 hr1f
        have hlow : ∀ s ∈ stratSeq (runChain (extract_doi_from_url url) idx st
            [FEvent.dupCheck false]
            [ ⟨.direct,
                endsWithStr ".pdf".data (lowerStr url) || hasSub "/pdf".data (lowerStr url),
                o.sDirect, "direct".data⟩,
              ⟨.openaccess, true, o.sOpenAccess, "openaccess".data⟩ ]).2.2,
            s.pos < 2 ∧ metaDependent s = false := by
          intro s hs
          rcases p6 s hs with h | ⟨sp, hsp, hname⟩
          · simp [stratSeq] at h
          · rcases List.mem_cons.mp hsp with h2 | h2
            · have hname' : SName.direct = s := by rw [h2] at hname; exact hname
              rw [← hname']
              exact ⟨by decide, by decide⟩
            · have h2' := List.mem_singleton.mp h2
              have hname' : SName.openaccess = s := by rw [h2'] at hname; exact hname
              rw [← hname']
              exact ⟨by decide, by decide⟩
        by_cases hdo : (extract_doi_from_url url).isSome = true
        · rw [if_pos hdo, if_pos hdo]
          obtain ⟨q1, q2, q3, q4, _q5, _q6⟩ :=
            runChain_props (extract_doi_from_url url) idx
              [ ⟨.openalex, true, o.sOpenAlex, "OpenAlex".data⟩,
                ⟨.core, true, o.sCore, "CORE".data⟩,
                ⟨.semantic, true, o.sSemantic, "Semantic Scholar".data⟩,
                ⟨.base, true, o.sBase, "BASE".data⟩,
                ⟨.openaire, true, o.sOpenAire, "OpenAIRE".data⟩,
                ⟨.doaj, true, o.sDoaj, "DOAJ".data⟩,
                ⟨.researchgate, o.metaTitle.isSome, o.sResearchGate, "ResearchGate".data⟩,
                ⟨.twelveft, true, o.s12ft, "12ft.io".data⟩,
                ⟨.scihub, (extract_doi_from_url url).isSome, o.sSciHub, "scihub".data⟩,
                ⟨.gscholar, o.metaTitle.isSome && o.playwright, o.sGScholar,
                  "Google Scholar".data⟩ ]
              st
              ((runChain (extract_doi_from_url url) idx st [FEvent.dupCheck false]
                [ ⟨.direct,
                    endsWithStr ".pdf".data (lowerStr url) || hasSub "/pdf".data (lowerStr url),
                    o.sDirect, "direct".data⟩,
                  ⟨.openaccess, true, o.sOpenAccess, "openaccess".data⟩ ]).2.2
                ++ [FEvent.meta])
              (noSucc_append_one _ _ hns rfl)
              (by
                rw [stratSeq_append, show stratSeq [FEvent.meta] = [] from rfl,
                  List.append_nil]
                exact p2)
              (by
                intro s hs sp hsp
                rw [stratSeq_append, show stratSeq [FEvent.meta] = [] from rfl,
                  List.append_nil] at hs
                have h2le : 2 ≤ sp.name.pos := by
                  simp only [List.mem_cons, List.not_mem_nil, or_false] at hsp
                  rcases hsp with h | h | h | h | h | h | h | h | h | h <;>
                    subst h <;> norm_num [SName.pos]
                have := (hlow s hs).1
                omega)
              (by
                refine spec_pairwise_of_ascending _ ?_
                show ascendingPos [SName.openalex, SName.core, SName.semantic, SName.base,
                  SName.openaire, SName.doaj, SName.researchgate, SName.twelveft,
                  SName.scihub, SName.gscholar] = true
                decide)
              (noMetaAfterDependent_append_meta _ (fun s hs => (hlow s hs).2))
          refine ⟨q1, q2, ?_, q4⟩
          rw [q3, metaCount_append, p3]
          decide
        · rw [if_neg hdo, if_neg hdo]
          obtain ⟨q1, q2, q3, q4, _q5, _q6⟩ :=
            runChain_props (extract_doi_from_url url) idx
              [ ⟨.openalex, true, o.sOpenAlex, "OpenAlex".data⟩,
                ⟨.core, true, o.sCore, "CORE".data⟩,
                ⟨.semantic, true, o.sSemantic, "Semantic Scholar".data⟩,
                ⟨.base, true, o.sBase, "BASE".data⟩,
                ⟨.openaire, true, o.sOpenAire, "OpenAIRE".data⟩,
                ⟨.doaj, true, o.sDoaj, "DOAJ".data⟩,
                ⟨.researchgate, (none : Option Str).isSome, o.sResearchGate,
                  "ResearchGate".data⟩,
                ⟨.twelveft, true, o.s12ft, "12ft.io".data⟩,
                ⟨.scihub, (extract_doi_from_url url).isSome, o.sSciHub, "scihub".data⟩,
                ⟨.gscholar, (none : Option Str).isSome && o.playwright, o.sGScholar,
                  "Google Scholar".data⟩ ]
              st
              ((runChain (extract_doi_from_url url) idx st [FEvent.dupCheck false]
                [ ⟨.direct,
                    endsWithStr ".pdf".data (lowerStr url) || hasSub "/pdf".data (lowerStr url),
                    o.sDirect, "direct".data⟩,
                  ⟨.openaccess, true, o.sOpenAccess, "openaccess".data⟩ ]).2.2)
              hns p2
              (by
                intro s hs sp hsp
                have h2le : 2 ≤ sp.name.pos := by
                  simp only [List.mem_cons, List.not_mem_nil, or_false] at hsp
                  rcases hsp with h | h | h | h | h | h | h | h | h | h <;>
                    subst h <;> norm_num [SName.pos]
                have := (hlow s hs).1
                omega)
              (by
                refine spec_pairwise_of_ascending _ ?_
                show ascendingPos [SName.openalex, SName.core, SName.semantic, SName.base,
                  SName.openaire, SName.doaj, SName.researchgate, SName.twelveft,
                  SName.scihub, SName.gscholar] = true
                decide)
              p4
          refine ⟨q1, q2, ?_, q4⟩
          rw [q3, p3]
          decide
